import Mathlib

/-!
Verification of the MKV → HLS transcoding server (`src/server.js`).

The file shallowly embeds the orchestration pipeline of `server.js`:
stream analysis (`analyzeStreams`), the per-stream codec decisions inlined in
`createHLSForStreams`, the sequential segment-generation loops, and the master
manifest assembly.  External collaborators (ffprobe, ffmpeg, the filesystem)
are modelled as an effect trace: every external invocation the JS code awaits
is recorded as an `Effect`.  The repeated `ffprobe` calls of the source are
modelled as deterministic (they always report the same `Metadata`, which is
how a well-behaved probe of an unchanged file behaves), and the success or
failure of the n-th ffmpeg segment-generation invocation is supplied by an
oracle `Nat → Bool`, mirroring the promise `resolve`/`reject` paths of the
source.
-/

namespace MkvServer

/-- Decimal digits of `n` (most significant first), fuel-based so that the
kernel can evaluate it.  `decDigitsAux fuel n` is correct whenever `n < fuel`.
This models the decimal rendering JavaScript applies when a number is
concatenated with a string (`Date.now() + '-'`, `` `video_${i}` ``). -/
def decDigitsAux : Nat → Nat → List Nat
  | 0, _ => []
  | fuel + 1, n => if n < 10 then [n] else decDigitsAux fuel (n / 10) ++ [n % 10]

/-- Decimal rendering of a natural number, as JavaScript string coercion
produces it. -/
def natToDec (n : Nat) : String :=
  String.mk ((decDigitsAux (n + 1) n).map (fun d => Char.ofNat (48 + d)))

/-- One elementary stream as reported by the external probe: its
`codec_type`, `codec_name` and optional language tag, exactly the fields
`server.js` reads from the ffprobe metadata. -/
structure ProbeStream where
  codec_type : String
  codec_name : String
  language : Option String
deriving DecidableEq

/-- The probe result: the ordered list of elementary streams of the
container (`metadata.streams`). -/
structure Metadata where
  streams : List ProbeStream
deriving DecidableEq

/-- The stream inventory produced by `analyzeStreams`: container-native
indices bucketed by type (`streams.video/audio/subtitle` in the source). -/
structure Streams where
  video : List Nat
  audio : List Nat
  subtitle : List Nat
deriving DecidableEq

/-- `analyzeStreams` (server.js:25-46): classify every reported stream into
the video/audio/subtitle buckets by its `codec_type`, keeping the
container-native index order.  Streams of any other type are dropped. -/
def analyzeStreams (m : Metadata) : Streams :=
  { video := (m.streams.enum.filter (fun p => p.2.codec_type == "video")).map Prod.fst
    audio := (m.streams.enum.filter (fun p => p.2.codec_type == "audio")).map Prod.fst
    subtitle := (m.streams.enum.filter (fun p => p.2.codec_type == "subtitle")).map Prod.fst }

/-- `isAudioStreamAAC` (server.js:48-60): re-probe, find the stream whose
container index is `streamIndex` and whose type is audio, and compare its
codec with `aac`; `false` when no such stream exists. -/
def isAudioStreamAAC (m : Metadata) (streamIndex : Nat) : Bool :=
  match m.streams.enum.find? (fun p => p.2.codec_type == "audio" && p.1 == streamIndex) with
  | none => false
  | some p => p.2.codec_name == "aac"

/-- One ffmpeg invocation: the option pairs passed via `addOption` /
`outputOptions`, in source order, and the `.output(...)` target. -/
structure EngineCmd where
  opts : List (String × String)
  outputFile : String
deriving DecidableEq

/-- Externally visible actions of the pipeline, in the order the source
awaits them: an ffprobe call, a job-directory creation, an ffmpeg
segment-generation call, or a file write. -/
inductive Effect where
  | probe : Effect
  | mkdirJob : String → Effect
  | engine : EngineCmd → Effect
  | writeFile : String → String → Effect
deriving DecidableEq

/-- The data flowing into one `#EXT-X-MEDIA` line of the master playlist:
language tag, type-local index, and whether the `DEFAULT` attribute is `YES`
(the source computes it as `i === 0`). -/
structure RenditionFragment where
  lang : String
  idx : Nat
  isDefault : Bool
deriving DecidableEq

/-- Mutable state of `createHLSForStreams`: the effect trace so far, how many
ffmpeg generation calls were issued, and the three accumulation arrays
(`playlistEntries` holds the type-local index of each generated video
stream; the rendition lines are kept as structured fragments and rendered by
`renderAudio`/`renderSub` exactly as the source templates do). -/
structure HLSState where
  trace : List Effect
  calls : Nat
  playlistEntries : List Nat
  audioEntries : List RenditionFragment
  subtitleEntries : List RenditionFragment
deriving DecidableEq

/-- Language tag of a probed stream: `streamInfo?.tags?.language || 'und'`.
JavaScript `||` also replaces the empty string by `'und'`. -/
def langOf (info : ProbeStream) : String :=
  match info.language with
  | none => "und"
  | some l => if l = "" then "und" else l

/-- The ffmpeg invocation for one video stream (server.js:84-92). -/
def videoCmd (outputPath : String) (i streamIndex : Nat) (isH264 : Bool) : EngineCmd :=
  { opts := [("-map", "0:" ++ natToDec streamIndex), ("-f", "hls"), ("-hls_time", "10"),
      ("-hls_list_size", "0"),
      ("-hls_segment_filename", outputPath ++ "/video_" ++ natToDec i ++ "_%03d.ts"),
      ("-c:v", if isH264 then "copy" else "libx264")]
    outputFile := outputPath ++ "/video_" ++ natToDec i ++ ".m3u8" }

/-- The ffmpeg invocation for one audio stream (server.js:117-125). -/
def audioCmd (outputPath : String) (i streamIndex : Nat) (isAAC : Bool) : EngineCmd :=
  { opts := [("-map", "0:" ++ natToDec streamIndex),
      ("-c:a", if isAAC then "copy" else "aac"), ("-f", "hls"), ("-hls_time", "10"),
      ("-hls_list_size", "0"),
      ("-hls_segment_filename", outputPath ++ "/audio_" ++ natToDec i ++ "_%03d.ts")]
    outputFile := outputPath ++ "/audio_" ++ natToDec i ++ ".m3u8" }

/-- The ffmpeg invocation extracting one subtitle stream to WebVTT
(server.js:153-156). -/
def subCmd (outputPath : String) (i streamIndex : Nat) : EngineCmd :=
  { opts := [("-map", "0:" ++ natToDec streamIndex), ("-f", "webvtt")]
    outputFile := outputPath ++ "/sub_" ++ natToDec i ++ ".vtt" }

/-- The synthesized single-segment subtitle playlist (server.js:159-162),
including the template literal's indentation. -/
def subManifestContent (i : Nat) : String :=
  "#EXTM3U\n        WEBVTT\n        #EXTINF:-1,\n        sub_" ++ natToDec i ++ ".vtt"

/-- The unsupported-subtitle test of server.js:147. -/
def skipSubtitle (codec : String) : Bool :=
  codec == "hdmv_pgs_subtitle" || codec == "subrip"

/-- The `DEFAULT=` attribute value: `i === 0 ? 'YES' : 'NO'`. -/
def defaultAttr (b : Bool) : String := if b then "YES" else "NO"

/-- The audio `#EXT-X-MEDIA` line pushed at server.js:127, rendered from its
fragment data. -/
def renderAudio (f : RenditionFragment) : String :=
  "#EXT-X-MEDIA:TYPE=AUDIO,GROUP-ID=\"audio\",LANGUAGE=\"" ++ f.lang ++ "\",NAME=\""
    ++ f.lang ++ "\",AUTOSELECT=YES,DEFAULT=" ++ defaultAttr f.isDefault
    ++ ",URI=\"audio_" ++ natToDec f.idx ++ ".m3u8\""

/-- The subtitle `#EXT-X-MEDIA` line pushed at server.js:167. -/
def renderSub (f : RenditionFragment) : String :=
  "#EXT-X-MEDIA:TYPE=SUBTITLES,GROUP-ID=\"subs\",LANGUAGE=\"" ++ f.lang ++ "\",NAME=\""
    ++ f.lang ++ "\",AUTOSELECT=YES,DEFAULT=" ++ defaultAttr f.isDefault
    ++ ",URI=\"sub_" ++ natToDec f.idx ++ ".m3u8\""

/-- The video `#EXT-X-STREAM-INF` entry pushed at server.js:94 (a tag line
plus the URI line, joined by the embedded newline of the template). -/
def renderVideo (i : Nat) : String :=
  "#EXT-X-STREAM-INF:BANDWIDTH=4000000,AUDIO=\"audios\",SUBTITLES=\"subs\"\nvideo_"
    ++ natToDec i ++ ".m3u8"

/-- `Array.prototype.join('\n')` on the collected entry strings. -/
def joinNL : List String → String
  | [] => ""
  | [s] => s
  | s :: s2 :: rest => s ++ "\n" ++ joinNL (s2 :: rest)

/-- The master playlist text assembled at server.js:177-181: audio entries,
then subtitle entries, then video entries, joined by newlines. -/
def masterContent (st : HLSState) : String :=
  joinNL (st.audioEntries.map renderAudio ++ st.subtitleEntries.map renderSub
    ++ st.playlistEntries.map renderVideo)

/-- One iteration of the video loop (server.js:72-100) on the pair
`(i, streamIndex)`: an ffprobe for the stream info, then the ffmpeg call;
a missing stream aborts (the JS callback would throw reading `.codec_name`
of `undefined`), and a rejected ffmpeg promise aborts. -/
def videoStep (m : Metadata) (oracle : Nat → Bool) (outputPath : String)
    (st : HLSState) (p : Nat × Nat) : Except HLSState HLSState :=
  let st1 : HLSState := { st with trace := st.trace ++ [Effect.probe] }
  match m.streams[p.2]? with
  | none => Except.error st1
  | some info =>
    let cmd := videoCmd outputPath p.1 p.2 (info.codec_name == "h264")
    let st2 : HLSState :=
      { st1 with trace := st1.trace ++ [Effect.engine cmd], calls := st1.calls + 1 }
    if oracle st1.calls then
      Except.ok { st2 with playlistEntries := st2.playlistEntries ++ [p.1] }
    else Except.error st2

/-- One iteration of the audio loop (server.js:105-133): the
`isAudioStreamAAC` probe, the stream-info probe, then the ffmpeg call.  The
language is read through optional chaining, so a missing stream does not
abort here. -/
def audioStep (m : Metadata) (oracle : Nat → Bool) (outputPath : String)
    (st : HLSState) (p : Nat × Nat) : Except HLSState HLSState :=
  let isAAC := isAudioStreamAAC m p.2
  let lang := match m.streams[p.2]? with
    | none => "und"
    | some info => langOf info
  let st1 : HLSState := { st with trace := st.trace ++ [Effect.probe, Effect.probe] }
  let cmd := audioCmd outputPath p.1 p.2 isAAC
  let st2 : HLSState :=
    { st1 with trace := st1.trace ++ [Effect.engine cmd], calls := st1.calls + 1 }
  if oracle st1.calls then
    Except.ok { st2 with audioEntries := st2.audioEntries ++ [⟨lang, p.1, p.1 == 0⟩] }
  else Except.error st2

/-- One iteration of the subtitle loop (server.js:136-174): a probe, the
unsupported-codec skip test, and otherwise the WebVTT extraction followed by
the synthesized `sub_<i>.m3u8` write and the entry push. -/
def subStep (m : Metadata) (oracle : Nat → Bool) (outputPath : String)
    (st : HLSState) (p : Nat × Nat) : Except HLSState HLSState :=
  let st1 : HLSState := { st with trace := st.trace ++ [Effect.probe] }
  match m.streams[p.2]? with
  | none => Except.error st1
  | some info =>
    if skipSubtitle info.codec_name then Except.ok st1
    else
      let cmd := subCmd outputPath p.1 p.2
      let st2 : HLSState :=
        { st1 with trace := st1.trace ++ [Effect.engine cmd], calls := st1.calls + 1 }
      if oracle st1.calls then
        Except.ok { st2 with
          trace := st2.trace ++ [Effect.writeFile
            (outputPath ++ "/sub_" ++ natToDec p.1 ++ ".m3u8") (subManifestContent p.1)]
          subtitleEntries := st2.subtitleEntries ++ [⟨langOf info, p.1, p.1 == 0⟩] }
      else Except.error st2

/-- Sequentially run one loop of `createHLSForStreams`: each iteration's
rejection aborts the whole job with the state at the failure point, exactly
as an `await`ed rejection propagates out of the `async` function. -/
def foldSteps (f : HLSState → Nat × Nat → Except HLSState HLSState) :
    List (Nat × Nat) → HLSState → Except HLSState HLSState
  | [], st => Except.ok st
  | x :: xs, st =>
    match f st x with
    | Except.ok st2 => foldSteps f xs st2
    | Except.error st2 => Except.error st2

/-- The server-level output directory (`path.join(__dirname, 'output')`,
kept as a relative name here). -/
def outputDir : String := "output"

/-- `createHLSForStreams` (server.js:63-186): create the job directory, run
the video, audio and subtitle loops in that order over the type-local
enumeration of each bucket, then write `master.m3u8` and return its
job-relative location. -/
def createHLSForStreams (m : Metadata) (oracle : Nat → Bool) (fileName : String)
    (streams : Streams) : Except HLSState (HLSState × String) :=
  let outputPath := outputDir ++ "/" ++ fileName
  let st0 : HLSState :=
    { trace := [Effect.mkdirJob outputPath], calls := 0,
      playlistEntries := [], audioEntries := [], subtitleEntries := [] }
  match foldSteps (videoStep m oracle outputPath) streams.video.enum st0 with
  | Except.error st => Except.error st
  | Except.ok st1 =>
    match foldSteps (audioStep m oracle outputPath) streams.audio.enum st1 with
    | Except.error st => Except.error st
    | Except.ok st2 =>
      match foldSteps (subStep m oracle outputPath) streams.subtitle.enum st2 with
      | Except.error st => Except.error st
      | Except.ok st3 =>
        Except.ok ({ st3 with trace := st3.trace ++
            [Effect.writeFile (outputPath ++ "/master.m3u8") (masterContent st3)] },
          fileName ++ "/master.m3u8")

/-- What the `/upload` handler sends back (server.js:196-202). -/
inductive UploadResponse where
  | ok : String → String → UploadResponse
  | serverError : Nat → String → UploadResponse
deriving DecidableEq

/-- The `/upload` route (server.js:188-204): await `analyzeStreams` (one
probe; its failure is the `probe` argument being an error), then
`createHLSForStreams`; any rejection is caught and answered with a 500 and
the fixed error body.  Returns the response together with the full effect
trace of the job. -/
def uploadPost (probe : Except Unit Metadata) (oracle : Nat → Bool)
    (fileName : String) : UploadResponse × List Effect :=
  match probe with
  | Except.error _ =>
    (UploadResponse.serverError 500 "Error processing video.", [Effect.probe])
  | Except.ok m =>
    match createHLSForStreams m oracle fileName (analyzeStreams m) with
    | Except.error st =>
      (UploadResponse.serverError 500 "Error processing video.", Effect.probe :: st.trace)
    | Except.ok (st, rel) =>
      (UploadResponse.ok "Video processed with all streams." ("/streams/" ++ rel),
        Effect.probe :: st.trace)

/-- The multer storage filename (server.js:20): submission time rendered in
decimal, a dash, and the original name.  The job identifier and output
directory are derived from it. -/
def uploadFilename (now : Nat) (originalname : String) : String :=
  natToDec now ++ "-" ++ originalname

/-- Stream types handled by the pipeline. -/
inductive StreamType where
  | video : StreamType
  | audio : StreamType
  | subtitle : StreamType
deriving DecidableEq

/-- Possible outcomes of the per-stream codec decision. -/
inductive StreamAction where
  | passthrough : StreamAction
  | transcode : String → StreamAction
  | skip : StreamAction
deriving DecidableEq

/-- The Codec Decision Engine, read off the three inline decisions of
`createHLSForStreams`: server.js:91 (`-c:v` copy vs `libx264`, i.e. encode
to H.264), server.js:120 (`-c:a` copy vs `aac`), and server.js:147 (skip
`hdmv_pgs_subtitle`/`subrip`, otherwise extract WebVTT). -/
def streamDecision : StreamType → String → StreamAction
  | StreamType.video, c =>
    if c == "h264" then StreamAction.passthrough else StreamAction.transcode "h264"
  | StreamType.audio, c =>
    if c == "aac" then StreamAction.passthrough else StreamAction.transcode "aac"
  | StreamType.subtitle, c =>
    if skipSubtitle c then StreamAction.skip else StreamAction.transcode "webvtt"

/-- Project the state out of a finished or aborted run. -/
def runState (r : Except HLSState (HLSState × String)) : HLSState :=
  match r with
  | Except.ok (st, _) => st
  | Except.error st => st

/-! ### Characterization of the loops

Spec-side descriptions of what each loop appends, proved equal to the run's
accumulations below. -/

/-- Count the effects satisfying `p` in a trace. -/
def countEff (p : Effect → Bool) (tr : List Effect) : Nat :=
  (tr.filter p).length

/-- Recognize a probe effect. -/
def isProbe : Effect → Bool
  | Effect.probe => true
  | _ => false

/-- Recognize an engine (ffmpeg) invocation whose command satisfies `p`. -/
def isEngine (p : EngineCmd → Bool) : Effect → Bool
  | Effect.engine c => p c
  | _ => false

/-- Number of probe invocations in a trace. -/
def countProbe (tr : List Effect) : Nat := countEff isProbe tr

/-- Number of ffmpeg invocations in a trace. -/
def countEngine (tr : List Effect) : Nat := countEff (isEngine (fun _ => true)) tr

/-- Effects of one video-loop iteration. -/
def videoEffectsOf (m : Metadata) (outputPath : String) (p : Nat × Nat) : List Effect :=
  match m.streams[p.2]? with
  | none => [Effect.probe]
  | some info =>
    [Effect.probe, Effect.engine (videoCmd outputPath p.1 p.2 (info.codec_name == "h264"))]

/-- Effects of one audio-loop iteration. -/
def audioEffectsOf (m : Metadata) (outputPath : String) (p : Nat × Nat) : List Effect :=
  [Effect.probe, Effect.probe,
    Effect.engine (audioCmd outputPath p.1 p.2 (isAudioStreamAAC m p.2))]

/-- Effects of one subtitle-loop iteration. -/
def subEffectsOf (m : Metadata) (outputPath : String) (p : Nat × Nat) : List Effect :=
  match m.streams[p.2]? with
  | none => [Effect.probe]
  | some info =>
    if skipSubtitle info.codec_name then [Effect.probe]
    else [Effect.probe, Effect.engine (subCmd outputPath p.1 p.2),
      Effect.writeFile (outputPath ++ "/sub_" ++ natToDec p.1 ++ ".m3u8")
        (subManifestContent p.1)]

/-- Concatenate per-iteration effect lists. -/
def effList (f : Nat × Nat → List Effect) : List (Nat × Nat) → List Effect
  | [] => []
  | x :: xs => f x ++ effList f xs

/-- The audio fragment produced for the enumerated pair `(i, streamIndex)`. -/
def audioFragOf (m : Metadata) (p : Nat × Nat) : RenditionFragment :=
  { lang := match m.streams[p.2]? with
      | none => "und"
      | some info => langOf info
    idx := p.1
    isDefault := p.1 == 0 }

/-- Does the enumerated subtitle pair survive the skip rule? -/
def keepSub (m : Metadata) (p : Nat × Nat) : Bool :=
  match m.streams[p.2]? with
  | none => false
  | some info => !skipSubtitle info.codec_name

/-- The subtitle fragment produced for an accepted enumerated pair. -/
def subFragOf (m : Metadata) (p : Nat × Nat) : RenditionFragment :=
  { lang := match m.streams[p.2]? with
      | none => "und"
      | some info => langOf info
    idx := p.1
    isDefault := p.1 == 0 }

/-- The subtitle fragments produced by the subtitle loop on `l`. -/
def subFrags (m : Metadata) (l : List (Nat × Nat)) : List RenditionFragment :=
  (l.filter (keepSub m)).map (subFragOf m)

theorem videoStep_ok (m : Metadata) (oracle : Nat → Bool) (out : String)
    (st st' : HLSState) (p : Nat × Nat)
    (h : videoStep m oracle out st p = Except.ok st') :
    oracle st.calls = true ∧
      st' = { st with
        trace := st.trace ++ videoEffectsOf m out p,
        calls := st.calls + 1,
        playlistEntries := st.playlistEntries ++ [p.1] } := by
  unfold videoStep at h
  unfold videoEffectsOf
  cases hm : m.streams[p.2]? with
  | none => rw [hm] at h; cases h
  | some info =>
    rw [hm] at h
    simp only at h
    split at h
    · next ho =>
      cases h
      refine ⟨ho, ?_⟩
      simp
    · cases h

theorem audioStep_ok (m : Metadata) (oracle : Nat → Bool) (out : String)
    (st st' : HLSState) (p : Nat × Nat)
    (h : audioStep m oracle out st p = Except.ok st') :
    oracle st.calls = true ∧
      st' = { st with
        trace := st.trace ++ audioEffectsOf m out p,
        calls := st.calls + 1,
        audioEntries := st.audioEntries ++ [audioFragOf m p] } := by
  unfold audioStep at h
  unfold audioEffectsOf audioFragOf
  simp only at h
  split at h
  · next ho =>
    cases h
    refine ⟨ho, ?_⟩
    simp
  · cases h

theorem subStep_ok (m : Metadata) (oracle : Nat → Bool) (out : String)
    (st st' : HLSState) (p : Nat × Nat)
    (h : subStep m oracle out st p = Except.ok st') :
    (keepSub m p = true → oracle st.calls = true) ∧
      st' = { st with
        trace := st.trace ++ subEffectsOf m out p,
        calls := st.calls + (if keepSub m p then 1 else 0),
        subtitleEntries := st.subtitleEntries
          ++ (if keepSub m p then [subFragOf m p] else []) } := by
  unfold subStep at h
  unfold subEffectsOf subFragOf keepSub
  cases hm : m.streams[p.2]? with
  | none => rw [hm] at h; cases h
  | some info =>
    rw [hm] at h
    simp only at h
    by_cases hs : skipSubtitle info.codec_name
    · rw [if_pos hs] at h
      cases h
      simp [hs]
    · rw [if_neg hs] at h
      split at h
      · next ho =>
        cases h
        simp only [hs, Bool.not_false, if_pos, if_true]
        exact ⟨fun _ => ho, by simp [langOf]⟩
      · cases h

theorem videoFold_ok (m : Metadata) (oracle : Nat → Bool) (out : String) :
    ∀ (l : List (Nat × Nat)) (st st' : HLSState),
      foldSteps (videoStep m oracle out) l st = Except.ok st' →
      st' = { st with
        trace := st.trace ++ effList (videoEffectsOf m out) l,
        calls := st.calls + l.length,
        playlistEntries := st.playlistEntries ++ l.map Prod.fst } := by
  intro l
  induction l with
  | nil =>
    intro st st' h
    simp only [foldSteps] at h
    cases h
    simp [effList]
  | cons p ps ih =>
    intro st st' h
    simp only [foldSteps] at h
    cases hstep : videoStep m oracle out st p with
    | error st2 => rw [hstep] at h; cases h
    | ok st2 =>
      rw [hstep] at h
      obtain ⟨-, h2⟩ := videoStep_ok m oracle out st st2 p hstep
      subst h2
      have := ih _ _ h
      subst this
      simp [effList, List.append_assoc, Nat.add_assoc, Nat.add_comm 1 ps.length]

theorem audioFold_ok (m : Metadata) (oracle : Nat → Bool) (out : String) :
    ∀ (l : List (Nat × Nat)) (st st' : HLSState),
      foldSteps (audioStep m oracle out) l st = Except.ok st' →
      st' = { st with
        trace := st.trace ++ effList (audioEffectsOf m out) l,
        calls := st.calls + l.length,
        audioEntries := st.audioEntries ++ l.map (audioFragOf m) } := by
  intro l
  induction l with
  | nil =>
    intro st st' h
    simp only [foldSteps] at h
    cases h
    simp [effList]
  | cons p ps ih =>
    intro st st' h
    simp only [foldSteps] at h
    cases hstep : audioStep m oracle out st p with
    | error st2 => rw [hstep] at h; cases h
    | ok st2 =>
      rw [hstep] at h
      obtain ⟨-, h2⟩ := audioStep_ok m oracle out st st2 p hstep
      subst h2
      have := ih _ _ h
      subst this
      simp [effList, List.append_assoc, Nat.add_assoc, Nat.add_comm 1 ps.length]

theorem subFold_ok (m : Metadata) (oracle : Nat → Bool) (out : String) :
    ∀ (l : List (Nat × Nat)) (st st' : HLSState),
      foldSteps (subStep m oracle out) l st = Except.ok st' →
      st' = { st with
        trace := st.trace ++ effList (subEffectsOf m out) l,
        calls := st.calls + (l.filter (keepSub m)).length,
        subtitleEntries := st.subtitleEntries ++ subFrags m l } := by
  intro l
  induction l with
  | nil =>
    intro st st' h
    simp only [foldSteps] at h
    cases h
    simp [effList, subFrags]
  | cons p ps ih =>
    intro st st' h
    simp only [foldSteps] at h
    cases hstep : subStep m oracle out st p with
    | error st2 => rw [hstep] at h; cases h
    | ok st2 =>
      rw [hstep] at h
      obtain ⟨-, h2⟩ := subStep_ok m oracle out st st2 p hstep
      subst h2
      have := ih _ _ h
      subst this
      by_cases hk : keepSub m p = true
      · simp [effList, subFrags, hk, List.append_assoc, Nat.add_assoc,
          Nat.add_comm 1 (ps.filter (keepSub m)).length, List.filter_cons]
      · simp [effList, subFrags, hk, List.append_assoc, List.filter_cons]

/-- Full characterization of a successful `createHLSForStreams` run. -/
theorem createHLS_ok (m : Metadata) (oracle : Nat → Bool) (fileName : String)
    (streams : Streams) (st : HLSState) (rel : String)
    (h : createHLSForStreams m oracle fileName streams = Except.ok (st, rel)) :
    rel = fileName ++ "/master.m3u8" ∧
      st.playlistEntries = streams.video.enum.map Prod.fst ∧
      st.audioEntries = streams.audio.enum.map (audioFragOf m) ∧
      st.subtitleEntries = subFrags m streams.subtitle.enum ∧
      st.calls = streams.video.enum.length + streams.audio.enum.length
        + (streams.subtitle.enum.filter (keepSub m)).length ∧
      st.trace = Effect.mkdirJob (outputDir ++ "/" ++ fileName)
        :: (effList (videoEffectsOf m (outputDir ++ "/" ++ fileName)) streams.video.enum
          ++ effList (audioEffectsOf m (outputDir ++ "/" ++ fileName)) streams.audio.enum
          ++ effList (subEffectsOf m (outputDir ++ "/" ++ fileName)) streams.subtitle.enum
          ++ [Effect.writeFile (outputDir ++ "/" ++ fileName ++ "/master.m3u8")
                (masterContent st)]) := by
  unfold createHLSForStreams at h
  simp only at h
  cases h1 : foldSteps (videoStep m oracle (outputDir ++ "/" ++ fileName))
      streams.video.enum
      { trace := [Effect.mkdirJob (outputDir ++ "/" ++ fileName)], calls := 0,
        playlistEntries := [], audioEntries := [], subtitleEntries := [] } with
  | error st1 => rw [h1] at h; cases h
  | ok st1 =>
    rw [h1] at h
    simp only at h
    cases h2 : foldSteps (audioStep m oracle (outputDir ++ "/" ++ fileName))
        streams.audio.enum st1 with
    | error st2 => rw [h2] at h; cases h
    | ok st2 =>
      rw [h2] at h
      simp only at h
      cases h3 : foldSteps (subStep m oracle (outputDir ++ "/" ++ fileName))
          streams.subtitle.enum st2 with
      | error st3 => rw [h3] at h; cases h
      | ok st3 =>
        rw [h3] at h
        simp only at h
        have e1 := videoFold_ok m oracle _ _ _ _ h1
        have e2 := audioFold_ok m oracle _ _ _ _ h2
        have e3 := subFold_ok m oracle _ _ _ _ h3
        subst e1; subst e2; subst e3
        cases h
        refine ⟨rfl, by simp, by simp, by simp, by simp [Nat.add_assoc], ?_⟩
        simp [masterContent, List.append_assoc]

/-! ### Decimal rendering: correctness and injectivity -/

/-- Value of a most-significant-first digit list. -/
def decVal (ds : List Nat) : Nat := ds.foldl (fun a d => 10 * a + d) 0

theorem decVal_append_digit (ds : List Nat) (d : Nat) :
    decVal (ds ++ [d]) = 10 * decVal ds + d := by
  simp [decVal, List.foldl_append]

theorem decVal_decDigitsAux : ∀ (fuel n : Nat), n < fuel →
    decVal (decDigitsAux fuel n) = n := by
  intro fuel
  induction fuel with
  | zero => intro n h; omega
  | succ f ih =>
    intro n h
    unfold decDigitsAux
    by_cases h10 : n < 10
    · simp [h10, decVal]
    · rw [if_neg h10, decVal_append_digit, ih (n / 10) (by omega)]
      omega

theorem decDigitsAux_lt10 : ∀ (fuel n d : Nat), d ∈ decDigitsAux fuel n → d < 10 := by
  intro fuel
  induction fuel with
  | zero => intro n d h; simp [decDigitsAux] at h
  | succ f ih =>
    intro n d h
    unfold decDigitsAux at h
    by_cases h10 : n < 10
    · rw [if_pos h10] at h
      simp at h
      omega
    · rw [if_neg h10] at h
      rcases List.mem_append.mp h with h1 | h1
      · exact ih _ _ h1
      · simp at h1
        omega

theorem digitChar_inj : ∀ d1 < 10, ∀ d2 < 10,
    Char.ofNat (48 + d1) = Char.ofNat (48 + d2) → d1 = d2 := by decide

theorem map_digitChar_inj : ∀ (xs ys : List Nat), (∀ d ∈ xs, d < 10) →
    (∀ d ∈ ys, d < 10) →
    xs.map (fun d => Char.ofNat (48 + d)) = ys.map (fun d => Char.ofNat (48 + d)) →
    xs = ys := by
  intro xs
  induction xs with
  | nil => intro ys _ _ h; cases ys <;> simp_all
  | cons x xs ih =>
    intro ys hx hy h
    cases ys with
    | nil => simp at h
    | cons y ys =>
      simp only [List.map_cons, List.cons.injEq] at h
      have hxy : x = y :=
        digitChar_inj x (hx x (by simp)) y (hy y (by simp)) h.1
      subst hxy
      rw [ih ys (fun d hd => hx d (by simp [hd])) (fun d hd => hy d (by simp [hd])) h.2]

theorem natToDec_inj (a b : Nat) (h : natToDec a = natToDec b) : a = b := by
  unfold natToDec at h
  have hdata := congrArg String.data h
  simp only [String.data] at hdata
  have hdig := map_digitChar_inj _ _
    (fun d hd => decDigitsAux_lt10 _ _ _ hd)
    (fun d hd => decDigitsAux_lt10 _ _ _ hd) hdata
  have ha := decVal_decDigitsAux (a + 1) a (by omega)
  have hb := decVal_decDigitsAux (b + 1) b (by omega)
  rw [← ha, ← hb, hdig]

theorem uploadFilename_inj_time (t1 t2 : Nat) (nm : String)
    (h : uploadFilename t1 nm = uploadFilename t2 nm) : t1 = t2 := by
  unfold uploadFilename at h
  have hdata := congrArg String.data h
  simp only [String.data_append] at hdata
  have h1 : ((natToDec t1).data ++ ("-" : String).data) ++ nm.data
      = ((natToDec t2).data ++ ("-" : String).data) ++ nm.data := by
    simpa [List.append_assoc] using hdata
  have h2 := List.append_cancel_right h1
  have h3 := List.append_cancel_right h2
  exact natToDec_inj _ _ (String.ext h3)

/-! ### Counting probes, engine calls and default flags -/

theorem countEff_append (p : Effect → Bool) (a b : List Effect) :
    countEff p (a ++ b) = countEff p a + countEff p b := by
  simp [countEff, List.filter_append]

theorem countEff_cons (p : Effect → Bool) (e : Effect) (l : List Effect) :
    countEff p (e :: l) = (if p e then 1 else 0) + countEff p l := by
  simp only [countEff, List.filter_cons]
  split <;> simp [Nat.add_comm]

theorem countProbe_video (m : Metadata) (out : String) :
    ∀ l, countProbe (effList (videoEffectsOf m out) l) = l.length := by
  intro l
  induction l with
  | nil => simp [effList, countProbe, countEff]
  | cons p ps ih =>
    have h1 : countProbe (videoEffectsOf m out p) = 1 := by
      unfold videoEffectsOf
      cases m.streams[p.2]? <;> simp [countProbe, countEff, isProbe]
    simp only [effList, countProbe] at *
    rw [countEff_append, h1, ih]
    simp [Nat.add_comm]

theorem countProbe_audio (m : Metadata) (out : String) :
    ∀ l, countProbe (effList (audioEffectsOf m out) l) = 2 * l.length := by
  intro l
  induction l with
  | nil => simp [effList, countProbe, countEff]
  | cons p ps ih =>
    have h1 : countProbe (audioEffectsOf m out p) = 2 := by
      simp [audioEffectsOf, countProbe, countEff, isProbe]
    simp only [effList, countProbe] at *
    rw [countEff_append, h1, ih]
    simp only [List.length_cons]
    omega

theorem countProbe_sub (m : Metadata) (out : String) :
    ∀ l, countProbe (effList (subEffectsOf m out) l) = l.length := by
  intro l
  induction l with
  | nil => simp [effList, countProbe, countEff]
  | cons p ps ih =>
    have h1 : countProbe (subEffectsOf m out p) = 1 := by
      unfold subEffectsOf
      cases m.streams[p.2]? with
      | none => simp [countProbe, countEff, isProbe]
      | some info =>
        by_cases hs : skipSubtitle info.codec_name <;>
          simp [hs, countProbe, countEff, isProbe]
    simp only [effList, countProbe] at *
    rw [countEff_append, h1, ih]
    simp [Nat.add_comm]

/-- Number of rendition lines carrying `DEFAULT=YES`. -/
def countDefaults (fs : List RenditionFragment) : Nat :=
  (fs.filter (fun f => f.isDefault)).length

theorem enumFrom_fst_ne_zero {α : Type} (xs : List α) (n : Nat) (hn : 1 ≤ n) :
    ∀ p ∈ List.enumFrom n xs, ¬(p.1 == 0) = true := by
  rw [List.forall_mem_enumFrom]
  intro i _
  simp
  omega

theorem countDefaults_audio (m : Metadata) (xs : List Nat) :
    countDefaults (xs.enum.map (audioFragOf m)) = if xs.length = 0 then 0 else 1 := by
  have hdef : ∀ p : Nat × Nat,
      ((fun f => f.isDefault) ∘ audioFragOf m) p = (p.1 == 0) := by
    intro p; simp [audioFragOf]
  cases xs with
  | nil => simp [countDefaults]
  | cons x xs =>
    unfold countDefaults
    rw [List.filter_map]
    simp only [List.length_map]
    rw [List.filter_congr (fun p _ => hdef p)]
    rw [List.enum_cons]
    rw [List.filter_cons]
    simp only [Nat.zero_eq, beq_self_eq_true, if_pos]
    rw [List.filter_eq_nil_iff.mpr (enumFrom_fst_ne_zero xs 1 (by omega))]
    simp

theorem countDefaults_sub (m : Metadata) (xs : List Nat) :
    countDefaults (subFrags m xs.enum) =
      if (match xs with | [] => false | si :: _ => keepSub m (0, si)) then 1 else 0 := by
  have hdef : ∀ p : Nat × Nat,
      ((fun f => f.isDefault) ∘ subFragOf m) p = (p.1 == 0) := by
    intro p; simp [subFragOf]
  cases xs with
  | nil => simp [countDefaults, subFrags]
  | cons x xs =>
    unfold countDefaults subFrags
    rw [List.filter_map]
    simp only [List.length_map]
    rw [List.filter_congr (fun p _ => hdef p)]
    rw [List.filter_filter]
    rw [List.enum_cons]
    rw [List.filter_cons]
    have htail : List.filter (fun a => (a.1 == 0) && keepSub m a) (List.enumFrom 1 xs) = [] := by
      refine List.filter_eq_nil_iff.mpr ?_
      intro p hp
      have := enumFrom_fst_ne_zero xs 1 (by omega) p hp
      simp_all
    rw [htail]
    by_cases hk : keepSub m (0, x) = true <;> simp [hk]

/-! ### Shape of the assembled master playlist text -/

theorem not_hdr_front (a u : List Char) (h7 : a.take 7 = ("#EXT-X-" : String).data) :
    ¬ (("#EXTM3U" : String).data <+: a ++ u) := by
  intro hp
  obtain ⟨t2, ht⟩ := hp
  have hlen : 7 ≤ a.length := by
    have := congrArg List.length h7
    simp [List.length_take] at this
    omega
  have h1 := congrArg (List.take 7) ht
  rw [List.take_append_eq_append_take, List.take_append_eq_append_take] at h1
  rw [show List.take 7 ("#EXTM3U" : String).data = ("#EXTM3U" : String).data from by decide,
    show (7 : Nat) - ("#EXTM3U" : String).data.length = 0 from by decide,
    Nat.sub_eq_zero_of_le hlen] at h1
  simp only [List.take_zero, List.append_nil] at h1
  rw [h7] at h1
  exact absurd h1 (by decide)

theorem getLast?_ne_nil {α : Type} (l : List α) (c : α) (h : l.getLast? = some c) :
    l ≠ [] := by
  intro he
  subst he
  simp at h

theorem renderAudio_no_hdr (f : RenditionFragment) :
    ∀ u, ¬ (("#EXTM3U" : String).data <+: (renderAudio f).data ++ u) := by
  intro u
  unfold renderAudio
  simp only [String.data_append, List.append_assoc]
  exact not_hdr_front _ _ (by decide)

theorem renderSub_no_hdr (f : RenditionFragment) :
    ∀ u, ¬ (("#EXTM3U" : String).data <+: (renderSub f).data ++ u) := by
  intro u
  unfold renderSub
  simp only [String.data_append, List.append_assoc]
  exact not_hdr_front _ _ (by decide)

theorem renderVideo_no_hdr (i : Nat) :
    ∀ u, ¬ (("#EXTM3U" : String).data <+: (renderVideo i).data ++ u) := by
  intro u
  unfold renderVideo
  simp only [String.data_append, List.append_assoc]
  exact not_hdr_front _ _ (by decide)

theorem renderAudio_last (f : RenditionFragment) :
    (renderAudio f).data.getLast? = some '"' := by
  unfold renderAudio
  rw [String.data_append, List.getLast?_append]
  rfl

theorem renderSub_last (f : RenditionFragment) :
    (renderSub f).data.getLast? = some '"' := by
  unfold renderSub
  rw [String.data_append, List.getLast?_append]
  rfl

theorem renderVideo_last (i : Nat) :
    (renderVideo i).data.getLast? = some '8' := by
  unfold renderVideo
  rw [String.data_append, List.getLast?_append]
  rfl

theorem joinNL_data_cons (x : String) (xs : List String) :
    ∃ u, (joinNL (x :: xs)).data = x.data ++ u := by
  cases xs with
  | nil => exact ⟨[], by simp [joinNL]⟩
  | cons y ys =>
    refine ⟨("\n" : String).data ++ (joinNL (y :: ys)).data, ?_⟩
    simp [joinNL, String.data_append, List.append_assoc]

theorem joinNL_no_hdr (lines : List String)
    (h : ∀ x ∈ lines, ∀ u, ¬ (("#EXTM3U" : String).data <+: x.data ++ u)) :
    ¬ (("#EXTM3U" : String).data <+: (joinNL lines).data) := by
  cases lines with
  | nil =>
    intro hp
    rw [show joinNL [] = "" from rfl] at hp
    have : ("#EXTM3U" : String).data = [] := List.prefix_nil.mp hp
    exact absurd this (by decide)
  | cons x xs =>
    obtain ⟨u, hu⟩ := joinNL_data_cons x xs
    rw [hu]
    exact h x (by simp) u

theorem joinNL_last (lines : List String)
    (h : ∀ x ∈ lines, x.data ≠ [] ∧ x.data.getLast? ≠ some '\n') :
    (joinNL lines).data.getLast? ≠ some '\n' := by
  induction lines with
  | nil => simp [joinNL]
  | cons x xs ih =>
    cases xs with
    | nil => exact (h x (by simp)).2
    | cons y ys =>
      have hxs : (joinNL (y :: ys)).data.getLast? ≠ some '\n' :=
        ih (fun s hs => h s (by simp [hs]))
      have hne : (joinNL (y :: ys)).data ≠ [] := by
        obtain ⟨u, hu⟩ := joinNL_data_cons y ys
        rw [hu]
        intro he
        exact (h y (by simp)).1 (List.append_eq_nil.mp he).1
      rw [show joinNL (x :: y :: ys) = x ++ "\n" ++ joinNL (y :: ys) from rfl]
      simp only [String.data_append, List.getLast?_append]
      cases hj : (joinNL (y :: ys)).data.getLast? with
      | none => exact absurd (List.getLast?_eq_none_iff.mp hj) hne
      | some c =>
        rw [hj] at hxs
        simpa using hxs

/-! ### Error paths and invariants -/

theorem videoStep_err (m : Metadata) (oracle : Nat → Bool) (out : String)
    (st st' : HLSState) (p : Nat × Nat)
    (h : videoStep m oracle out st p = Except.error st') :
    (st' = { st with trace := st.trace ++ [Effect.probe] }) ∨
    (oracle st.calls = false ∧ ∃ info, m.streams[p.2]? = some info ∧
      st' = { st with
        trace := st.trace ++ [Effect.probe,
          Effect.engine (videoCmd out p.1 p.2 (info.codec_name == "h264"))],
        calls := st.calls + 1 }) := by
  unfold videoStep at h
  cases hm : m.streams[p.2]? with
  | none =>
    rw [hm] at h
    cases h
    exact Or.inl rfl
  | some info =>
    rw [hm] at h
    simp only at h
    split at h
    · cases h
    · next ho =>
      cases h
      exact Or.inr ⟨by simpa using ho, info, rfl, by simp⟩

theorem audioStep_err (m : Metadata) (oracle : Nat → Bool) (out : String)
    (st st' : HLSState) (p : Nat × Nat)
    (h : audioStep m oracle out st p = Except.error st') :
    oracle st.calls = false ∧
      st' = { st with
        trace := st.trace ++ audioEffectsOf m out p,
        calls := st.calls + 1 } := by
  unfold audioStep at h
  unfold audioEffectsOf
  simp only at h
  split at h
  · cases h
  · next ho =>
    cases h
    exact ⟨by simpa using ho, by simp⟩

theorem subStep_err (m : Metadata) (oracle : Nat → Bool) (out : String)
    (st st' : HLSState) (p : Nat × Nat)
    (h : subStep m oracle out st p = Except.error st') :
    (st' = { st with trace := st.trace ++ [Effect.probe] }) ∨
    (oracle st.calls = false ∧
      st' = { st with
        trace := st.trace ++ [Effect.probe,
          Effect.engine (subCmd out p.1 p.2)],
        calls := st.calls + 1 }) := by
  unfold subStep at h
  cases hm : m.streams[p.2]? with
  | none =>
    rw [hm] at h
    cases h
    exact Or.inl rfl
  | some info =>
    rw [hm] at h
    simp only at h
    by_cases hs : skipSubtitle info.codec_name
    · rw [if_pos hs] at h
      cases h
    · rw [if_neg hs] at h
      split at h
      · cases h
      · next ho =>
        cases h
        exact Or.inr ⟨by simpa using ho, by simp⟩

/-- Every generation call issued so far succeeded. -/
def OracleAll (oracle : Nat → Bool) (st : HLSState) : Prop :=
  ∀ k, k < st.calls → oracle k = true

/-- Every generation call except possibly the last succeeded. -/
def OracleAlmost (oracle : Nat → Bool) (st : HLSState) : Prop :=
  ∀ k, k + 1 < st.calls → oracle k = true

/-- Every file written so far is a per-stream subtitle playlist. -/
def SubWritesOnly (out : String) (st : HLSState) : Prop :=
  ∀ nm c, Effect.writeFile nm c ∈ st.trace →
    ∃ i, nm = out ++ "/sub_" ++ natToDec i ++ ".m3u8"

theorem foldSteps_inv {P Q : HLSState → Prop}
    (f : HLSState → Nat × Nat → Except HLSState HLSState)
    (hok : ∀ st x st', P st → f st x = Except.ok st' → P st')
    (herr : ∀ st x st', P st → f st x = Except.error st' → Q st') :
    ∀ (l : List (Nat × Nat)) (st : HLSState), P st →
      (∀ st', foldSteps f l st = Except.ok st' → P st') ∧
      (∀ st', foldSteps f l st = Except.error st' → Q st') := by
  intro l
  induction l with
  | nil =>
    intro st hP
    refine ⟨?_, ?_⟩
    · intro st' h
      simp only [foldSteps] at h
      cases h
      exact hP
    · intro st' h
      simp only [foldSteps] at h
      cases h
  | cons x xs ih =>
    intro st hP
    refine ⟨?_, ?_⟩ <;> intro st' h <;> simp only [foldSteps] at h
    · cases hstep : f st x with
      | error st2 => rw [hstep] at h; cases h
      | ok st2 =>
        rw [hstep] at h
        exact (ih st2 (hok st x st2 hP hstep)).1 st' h
    · cases hstep : f st x with
      | error st2 =>
        rw [hstep] at h
        cases h
        exact herr st x st' hP hstep
      | ok st2 =>
        rw [hstep] at h
        exact (ih st2 (hok st x st2 hP hstep)).2 st' h

theorem videoEffectsOf_no_write (m : Metadata) (out : String) (p : Nat × Nat)
    (nm c : String) : Effect.writeFile nm c ∉ videoEffectsOf m out p := by
  unfold videoEffectsOf
  cases m.streams[p.2]? <;> simp

theorem videoStep_invP (m : Metadata) (oracle : Nat → Bool) (out : String)
    (st : HLSState) (x : Nat × Nat) (st' : HLSState)
    (hP : OracleAll oracle st ∧ SubWritesOnly out st)
    (h : videoStep m oracle out st x = Except.ok st') :
    OracleAll oracle st' ∧ SubWritesOnly out st' := by
  obtain ⟨ho, h2⟩ := videoStep_ok m oracle out st st' x h
  subst h2
  constructor
  · intro k hk
    simp only at hk
    rcases Nat.lt_succ_iff_lt_or_eq.mp hk with hlt | heq
    · exact hP.1 k hlt
    · subst heq; exact ho
  · intro nm c hmem
    simp only [List.mem_append] at hmem
    rcases hmem with hmem | hmem
    · exact hP.2 nm c hmem
    · exact absurd hmem (videoEffectsOf_no_write m out x nm c)

theorem videoStep_invQ (m : Metadata) (oracle : Nat → Bool) (out : String)
    (st : HLSState) (x : Nat × Nat) (st' : HLSState)
    (hP : OracleAll oracle st ∧ SubWritesOnly out st)
    (h : videoStep m oracle out st x = Except.error st') :
    OracleAlmost oracle st' ∧ SubWritesOnly out st' := by
  rcases videoStep_err m oracle out st st' x h with h2 | ⟨-, info, -, h2⟩ <;> subst h2
  · exact ⟨fun k hk => hP.1 k (by simp only at hk; omega), fun nm c hmem => by
      simp only [List.mem_append] at hmem
      rcases hmem with hmem | hmem
      · exact hP.2 nm c hmem
      · simp at hmem⟩
  · refine ⟨fun k hk => hP.1 k (by simp only at hk; omega), fun nm c hmem => ?_⟩
    simp only [List.mem_append] at hmem
    rcases hmem with hmem | hmem
    · exact hP.2 nm c hmem
    · simp at hmem

theorem audioStep_invP (m : Metadata) (oracle : Nat → Bool) (out : String)
    (st : HLSState) (x : Nat × Nat) (st' : HLSState)
    (hP : OracleAll oracle st ∧ SubWritesOnly out st)
    (h : audioStep m oracle out st x = Except.ok st') :
    OracleAll oracle st' ∧ SubWritesOnly out st' := by
  obtain ⟨ho, h2⟩ := audioStep_ok m oracle out st st' x h
  subst h2
  constructor
  · intro k hk
    simp only at hk
    rcases Nat.lt_succ_iff_lt_or_eq.mp hk with hlt | heq
    · exact hP.1 k hlt
    · subst heq; exact ho
  · intro nm c hmem
    simp only [List.mem_append] at hmem
    rcases hmem with hmem | hmem
    · exact hP.2 nm c hmem
    · simp [audioEffectsOf] at hmem

theorem audioStep_invQ (m : Metadata) (oracle : Nat → Bool) (out : String)
    (st : HLSState) (x : Nat × Nat) (st' : HLSState)
    (hP : OracleAll oracle st ∧ SubWritesOnly out st)
    (h : audioStep m oracle out st x = Except.error st') :
    OracleAlmost oracle st' ∧ SubWritesOnly out st' := by
  obtain ⟨-, h2⟩ := audioStep_err m oracle out st st' x h
  subst h2
  refine ⟨fun k hk => hP.1 k (by simp only at hk; omega), fun nm c hmem => ?_⟩
  simp only [List.mem_append] at hmem
  rcases hmem with hmem | hmem
  · exact hP.2 nm c hmem
  · simp [audioEffectsOf] at hmem

theorem subEffectsOf_write (m : Metadata) (out : String) (x : Nat × Nat)
    (nm c : String) (hmem : Effect.writeFile nm c ∈ subEffectsOf m out x) :
    ∃ i, nm = out ++ "/sub_" ++ natToDec i ++ ".m3u8" := by
  unfold subEffectsOf at hmem
  cases hm : m.streams[x.2]? with
  | none => rw [hm] at hmem; simp at hmem
  | some info =>
    rw [hm] at hmem
    simp only at hmem
    by_cases hs : skipSubtitle info.codec_name
    · rw [if_pos hs] at hmem
      simp at hmem
    · rw [if_neg hs] at hmem
      simp at hmem
      rcases hmem with ⟨hnm, -⟩
      exact ⟨x.1, hnm⟩

theorem subStep_invP (m : Metadata) (oracle : Nat → Bool) (out : String)
    (st : HLSState) (x : Nat × Nat) (st' : HLSState)
    (hP : OracleAll oracle st ∧ SubWritesOnly out st)
    (h : subStep m oracle out st x = Except.ok st') :
    OracleAll oracle st' ∧ SubWritesOnly out st' := by
  obtain ⟨ho, h2⟩ := subStep_ok m oracle out st st' x h
  subst h2
  refine ⟨?_, ?_⟩
  · intro k hlt
    simp only at hlt
    by_cases hk : keepSub m x = true
    · rw [if_pos hk] at hlt
      rcases Nat.lt_succ_iff_lt_or_eq.mp hlt with h1 | h1
      · exact hP.1 k h1
      · subst h1; exact ho hk
    · rw [if_neg hk, Nat.add_zero] at hlt
      exact hP.1 k hlt
  · intro nm c hmem
    simp only [List.mem_append] at hmem
    rcases hmem with hmem | hmem
    · exact hP.2 nm c hmem
    · exact subEffectsOf_write m out x nm c hmem

theorem subStep_invQ (m : Metadata) (oracle : Nat → Bool) (out : String)
    (st : HLSState) (x : Nat × Nat) (st' : HLSState)
    (hP : OracleAll oracle st ∧ SubWritesOnly out st)
    (h : subStep m oracle out st x = Except.error st') :
    OracleAlmost oracle st' ∧ SubWritesOnly out st' := by
  rcases subStep_err m oracle out st st' x h with h2 | ⟨-, h2⟩ <;> subst h2
  · exact ⟨fun k hk => hP.1 k (by simp only at hk; omega), fun nm c hmem => by
      simp only [List.mem_append] at hmem
      rcases hmem with hmem | hmem
      · exact hP.2 nm c hmem
      · simp at hmem⟩
  · refine ⟨fun k hk => hP.1 k (by simp only at hk; omega), fun nm c hmem => ?_⟩
    simp only [List.mem_append] at hmem
    rcases hmem with hmem | hmem
    · exact hP.2 nm c hmem
    · simp at hmem

/-- A failed `createHLSForStreams` run: every generation call but the last
succeeded, and only per-stream subtitle playlists were ever written. -/
theorem createHLS_err (m : Metadata) (oracle : Nat → Bool) (fileName : String)
    (streams : Streams) (st : HLSState)
    (h : createHLSForStreams m oracle fileName streams = Except.error st) :
    OracleAlmost oracle st ∧ SubWritesOnly (outputDir ++ "/" ++ fileName) st := by
  unfold createHLSForStreams at h
  simp only at h
  have hP0 : OracleAll oracle
        { trace := [Effect.mkdirJob (outputDir ++ "/" ++ fileName)], calls := 0,
          playlistEntries := [], audioEntries := [], subtitleEntries := [] } ∧
      SubWritesOnly (outputDir ++ "/" ++ fileName)
        { trace := [Effect.mkdirJob (outputDir ++ "/" ++ fileName)], calls := 0,
          playlistEntries := [], audioEntries := [], subtitleEntries := [] } := by
    constructor
    · intro k hk; simp at hk
    · intro nm c hmem; simp at hmem
  have hv := foldSteps_inv (videoStep m oracle (outputDir ++ "/" ++ fileName))
    (videoStep_invP m oracle _) (videoStep_invQ m oracle _)
    streams.video.enum _ hP0
  cases h1 : foldSteps (videoStep m oracle (outputDir ++ "/" ++ fileName))
      streams.video.enum
      { trace := [Effect.mkdirJob (outputDir ++ "/" ++ fileName)], calls := 0,
        playlistEntries := [], audioEntries := [], subtitleEntries := [] } with
  | error st1 =>
    rw [h1] at h
    cases h
    exact hv.2 _ h1
  | ok st1 =>
    rw [h1] at h
    simp only at h
    have hP1 := hv.1 _ h1
    have ha := foldSteps_inv (audioStep m oracle (outputDir ++ "/" ++ fileName))
      (audioStep_invP m oracle _) (audioStep_invQ m oracle _)
      streams.audio.enum _ hP1
    cases h2 : foldSteps (audioStep m oracle (outputDir ++ "/" ++ fileName))
        streams.audio.enum st1 with
    | error st2 =>
      rw [h2] at h
      cases h
      exact ha.2 _ h2
    | ok st2 =>
      rw [h2] at h
      simp only at h
      have hP2 := ha.1 _ h2
      have hs := foldSteps_inv (subStep m oracle (outputDir ++ "/" ++ fileName))
        (subStep_invP m oracle _) (subStep_invQ m oracle _)
        streams.subtitle.enum _ hP2
      cases h3 : foldSteps (subStep m oracle (outputDir ++ "/" ++ fileName))
          streams.subtitle.enum st2 with
      | error st3 =>
        rw [h3] at h
        cases h
        exact hs.2 _ h3
      | ok st3 =>
        rw [h3] at h
        simp only at h
        cases h

theorem master_ne_subname (out : String) (i : Nat) :
    out ++ "/master.m3u8" ≠ out ++ "/sub_" ++ natToDec i ++ ".m3u8" := by
  intro h
  have hd := congrArg String.data h
  simp only [String.data_append, List.append_assoc] at hd
  have h2 := List.append_cancel_left hd
  have h3 := congrArg (List.take 5) h2
  rw [List.take_append_eq_append_take,
    show List.take 5 ("/sub_" : String).data = ("/sub_" : String).data from by decide,
    show (5 : Nat) - ("/sub_" : String).data.length = 0 from by decide] at h3
  simp only [List.take_zero, List.append_nil] at h3
  exact absurd h3 (by decide)

/-! ### The job directory creation is the first effect of every run -/

/-- The trace starts with the given effect. -/
def TraceHead (e : Effect) (st : HLSState) : Prop :=
  ∃ l, st.trace = e :: l

theorem traceHead_append (e : Effect) (st : HLSState) (l : List Effect)
    (h : TraceHead e st) : TraceHead e { st with trace := st.trace ++ l } := by
  obtain ⟨l0, h0⟩ := h
  exact ⟨l0 ++ l, by simp [h0]⟩

theorem videoStep_head (m : Metadata) (oracle : Nat → Bool) (out : String) (e : Effect) :
    ∀ (st : HLSState) (x : Nat × Nat) (st' : HLSState), TraceHead e st →
      (videoStep m oracle out st x = Except.ok st' ∨
        videoStep m oracle out st x = Except.error st') → TraceHead e st' := by
  intro st x st' hh hr
  rcases hr with hr | hr
  · obtain ⟨-, h2⟩ := videoStep_ok m oracle out st st' x hr
    subst h2
    exact traceHead_append e st _ hh
  · rcases videoStep_err m oracle out st st' x hr with h2 | ⟨-, info, -, h2⟩ <;> subst h2 <;>
      exact traceHead_append e st _ hh

theorem audioStep_head (m : Metadata) (oracle : Nat → Bool) (out : String) (e : Effect) :
    ∀ (st : HLSState) (x : Nat × Nat) (st' : HLSState), TraceHead e st →
      (audioStep m oracle out st x = Except.ok st' ∨
        audioStep m oracle out st x = Except.error st') → TraceHead e st' := by
  intro st x st' hh hr
  rcases hr with hr | hr
  · obtain ⟨-, h2⟩ := audioStep_ok m oracle out st st' x hr
    subst h2
    exact traceHead_append e st _ hh
  · obtain ⟨-, h2⟩ := audioStep_err m oracle out st st' x hr
    subst h2
    exact traceHead_append e st _ hh

theorem subStep_head (m : Metadata) (oracle : Nat → Bool) (out : String) (e : Effect) :
    ∀ (st : HLSState) (x : Nat × Nat) (st' : HLSState), TraceHead e st →
      (subStep m oracle out st x = Except.ok st' ∨
        subStep m oracle out st x = Except.error st') → TraceHead e st' := by
  intro st x st' hh hr
  rcases hr with hr | hr
  · obtain ⟨-, h2⟩ := subStep_ok m oracle out st st' x hr
    subst h2
    exact traceHead_append e st _ hh
  · rcases subStep_err m oracle out st st' x hr with h2 | ⟨-, h2⟩ <;> subst h2 <;>
      exact traceHead_append e st _ hh

/-- Whatever happens, the run's trace starts with the job directory
creation.  -/
theorem createHLS_trace_head (m : Metadata) (oracle : Nat → Bool) (fileName : String)
    (streams : Streams) :
    TraceHead (Effect.mkdirJob (outputDir ++ "/" ++ fileName))
      (runState (createHLSForStreams m oracle fileName streams)) := by
  unfold createHLSForStreams
  simp only
  have h0 : TraceHead (Effect.mkdirJob (outputDir ++ "/" ++ fileName))
      { trace := [Effect.mkdirJob (outputDir ++ "/" ++ fileName)], calls := 0,
        playlistEntries := [], audioEntries := [], subtitleEntries := [] } := ⟨[], rfl⟩
  have hv := foldSteps_inv (videoStep m oracle (outputDir ++ "/" ++ fileName))
    (fun st x st' hP hstep => videoStep_head m oracle _ _ st x st' hP (Or.inl hstep))
    (fun st x st' hP hstep => videoStep_head m oracle _ _ st x st' hP (Or.inr hstep))
    streams.video.enum _ h0
  cases h1 : foldSteps (videoStep m oracle (outputDir ++ "/" ++ fileName))
      streams.video.enum
      { trace := [Effect.mkdirJob (outputDir ++ "/" ++ fileName)], calls := 0,
        playlistEntries := [], audioEntries := [], subtitleEntries := [] } with
  | error st1 => exact hv.2 _ h1
  | ok st1 =>
    simp only
    have hP1 := hv.1 _ h1
    have ha := foldSteps_inv (audioStep m oracle (outputDir ++ "/" ++ fileName))
      (fun st x st' hP hstep => audioStep_head m oracle _ _ st x st' hP (Or.inl hstep))
      (fun st x st' hP hstep => audioStep_head m oracle _ _ st x st' hP (Or.inr hstep))
      streams.audio.enum _ hP1
    cases h2 : foldSteps (audioStep m oracle (outputDir ++ "/" ++ fileName))
        streams.audio.enum st1 with
    | error st2 => exact ha.2 _ h2
    | ok st2 =>
      simp only
      have hP2 := ha.1 _ h2
      have hsb := foldSteps_inv (subStep m oracle (outputDir ++ "/" ++ fileName))
        (fun st x st' hP hstep => subStep_head m oracle _ _ st x st' hP (Or.inl hstep))
        (fun st x st' hP hstep => subStep_head m oracle _ _ st x st' hP (Or.inr hstep))
        streams.subtitle.enum _ hP2
      cases h3 : foldSteps (subStep m oracle (outputDir ++ "/" ++ fileName))
          streams.subtitle.enum st2 with
      | error st3 => exact hsb.2 _ h3
      | ok st3 =>
        simp only [runState]
        exact traceHead_append _ st3 _ (hsb.1 _ h3)

/-! ### Claim theorems -/

/-- Is the subtitle stream at type-local index 0 present and accepted? -/
def firstSubtitleAccepted (m : Metadata) : Bool :=
  match (analyzeStreams m).subtitle with
  | [] => false
  | si :: _ => keepSub m (0, si)

/-- Container with one H.264 video, one AAC audio, one MP3 audio and one
ASS subtitle stream, used to instantiate the claim theorems. -/
def mAll : Metadata :=
  ⟨[⟨"video", "h264", none⟩, ⟨"audio", "aac", some "eng"⟩,
    ⟨"audio", "mp3", some "spa"⟩, ⟨"subtitle", "ass", some "eng"⟩]⟩

/-- The successful reference run on `mAll`. -/
def stAll : HLSState :=
  runState (createHLSForStreams mAll (fun _ => true) "job" (analyzeStreams mAll))

/-- Container whose first subtitle stream is skipped (SubRip) while the
second (ASS) is accepted. -/
def mSkipFirst : Metadata :=
  ⟨[⟨"subtitle", "subrip", none⟩, ⟨"subtitle", "ass", some "eng"⟩]⟩

/-- Container holding a single AAC audio stream. -/
def mOneAudio : Metadata := ⟨[⟨"audio", "aac", some "eng"⟩]⟩

/-- C1 (amended): in every completed job the number of `DEFAULT=YES` audio
renditions is 1 when any audio stream exists and 0 otherwise; the number of
`DEFAULT=YES` subtitle renditions is 1 exactly when the subtitle stream at
type-local index 0 exists and is accepted, and 0 otherwise — in particular
it is 0 when the first subtitle stream is skipped, even if a later subtitle
stream is accepted, because the source tests `i === 0` against the index
over all subtitle streams, skipped ones included. -/
theorem claim1_default_flags (m : Metadata) (oracle : Nat → Bool) (fn : String)
    (st : HLSState) (rel : String)
    (h : createHLSForStreams m oracle fn (analyzeStreams m) = Except.ok (st, rel)) :
    countDefaults st.audioEntries
        = (if (analyzeStreams m).audio.length = 0 then 0 else 1) ∧
      countDefaults st.subtitleEntries = (if firstSubtitleAccepted m then 1 else 0) := by
  obtain ⟨-, -, ha, hs, -, -⟩ := createHLS_ok m oracle fn (analyzeStreams m) st rel h
  rw [ha, hs]
  refine ⟨countDefaults_audio m _, ?_⟩
  rw [countDefaults_sub m _]
  unfold firstSubtitleAccepted
  rfl

/-- Witness for C1 on the concrete container `mAll`. -/
theorem claim1_default_flags_witness :
    countDefaults stAll.audioEntries
        = (if (analyzeStreams mAll).audio.length = 0 then 0 else 1) ∧
      countDefaults stAll.subtitleEntries
        = (if firstSubtitleAccepted mAll then 1 else 0) :=
  claim1_default_flags mAll (fun _ => true) "job" stAll "job/master.m3u8" rfl

/-- Counterexample to C1 as stated: on `mSkipFirst` one subtitle stream is
accepted (one subtitle line is emitted) yet no subtitle line carries
`DEFAULT=YES`, because the skipped first stream consumed index 0. -/
theorem claim1_cex :
    (runState (createHLSForStreams mSkipFirst (fun _ => true) "job"
        (analyzeStreams mSkipFirst))).subtitleEntries.length = 1 ∧
      countDefaults (runState (createHLSForStreams mSkipFirst (fun _ => true) "job"
        (analyzeStreams mSkipFirst))).subtitleEntries = 0 := by
  exact ⟨rfl, rfl⟩

/-- C2: the decision logic skips exactly the subtitle streams whose codec is
in the unsupported set; video and audio are never skipped, and are passed
through exactly when already H.264 resp. AAC, otherwise transcoded to that
codec.  The last three conjuncts tie the decision to the assembled ffmpeg
invocations: the copy codec argument appears iff the decision is
passthrough, and a subtitle iteration runs no engine call iff the decision
is skip. -/
theorem claim2_decision (t : StreamType) (c : String) :
    (streamDecision t c = StreamAction.skip
        ↔ t = StreamType.subtitle ∧ skipSubtitle c = true) ∧
      (streamDecision StreamType.video c = StreamAction.passthrough ↔ c = "h264") ∧
      (c ≠ "h264" → streamDecision StreamType.video c = StreamAction.transcode "h264") ∧
      (streamDecision StreamType.audio c = StreamAction.passthrough ↔ c = "aac") ∧
      (c ≠ "aac" → streamDecision StreamType.audio c = StreamAction.transcode "aac") ∧
      (∀ out i si, (("-c:v", "copy") ∈ (videoCmd out i si (c == "h264")).opts
        ↔ streamDecision StreamType.video c = StreamAction.passthrough)) ∧
      (∀ out i si, (("-c:a", "copy") ∈ (audioCmd out i si (c == "aac")).opts
        ↔ streamDecision StreamType.audio c = StreamAction.passthrough)) ∧
      (∀ (m : Metadata) (out : String) (p : Nat × Nat) (info : ProbeStream),
        m.streams[p.2]? = some info →
        ((∀ cmd, Effect.engine cmd ∉ subEffectsOf m out p)
          ↔ streamDecision StreamType.subtitle info.codec_name = StreamAction.skip)) := by
  refine ⟨?_, ?_, ?_, ?_, ?_, ?_, ?_, ?_⟩
  · cases t with
    | video => rcases eq_or_ne c "h264" with hc | hc <;> simp [streamDecision, hc]
    | audio => rcases eq_or_ne c "aac" with hc | hc <;> simp [streamDecision, hc]
    | subtitle => by_cases hs : skipSubtitle c = true <;> simp [streamDecision, hs]
  · rcases eq_or_ne c "h264" with hc | hc <;> simp [streamDecision, hc]
  · intro hc
    simp [streamDecision, hc]
  · rcases eq_or_ne c "aac" with hc | hc <;> simp [streamDecision, hc]
  · intro hc
    simp [streamDecision, hc]
  · intro out i si
    rcases eq_or_ne c "h264" with hc | hc <;> simp [streamDecision, videoCmd, hc]
  · intro out i si
    rcases eq_or_ne c "aac" with hc | hc <;> simp [streamDecision, audioCmd, hc]
  · intro m out p info hm
    unfold subEffectsOf streamDecision
    rw [hm]
    simp only
    by_cases hs : skipSubtitle info.codec_name
    · simp [hs]
    · simp [hs]

/-- Witness for C2: PGS subtitles are skipped and a non-H.264 video stream
is re-encoded to H.264. -/
theorem claim2_decision_witness :
    streamDecision StreamType.subtitle "hdmv_pgs_subtitle" = StreamAction.skip ∧
      streamDecision StreamType.video "hevc" = StreamAction.transcode "h264" :=
  ⟨(claim2_decision StreamType.subtitle "hdmv_pgs_subtitle").1.mpr ⟨rfl, by decide⟩,
    (claim2_decision StreamType.video "hevc").2.2.1 (by decide)⟩

/-- C5 (amended): a job's successful run performs `1 + V + 2·A + S` probe
invocations — one in `analyzeStreams`, one per video stream, two per audio
stream (`isAudioStreamAAC` plus the stream-info lookup) and one per subtitle
stream — not exactly one; the first conjunct records the full `/upload`
response and trace. -/
theorem claim5_probe_count (m : Metadata) (oracle : Nat → Bool) (fn : String)
    (st : HLSState) (rel : String)
    (h : createHLSForStreams m oracle fn (analyzeStreams m) = Except.ok (st, rel)) :
    uploadPost (Except.ok m) oracle fn
        = (UploadResponse.ok "Video processed with all streams." ("/streams/" ++ rel),
          Effect.probe :: st.trace) ∧
      countProbe (Effect.probe :: st.trace)
        = 1 + (analyzeStreams m).video.length + 2 * (analyzeStreams m).audio.length
          + (analyzeStreams m).subtitle.length := by
  obtain ⟨-, -, -, -, -, htr⟩ := createHLS_ok m oracle fn (analyzeStreams m) st rel h
  constructor
  · unfold uploadPost
    simp only
    rw [h]
  · rw [htr]
    unfold countProbe
    rw [countEff_cons, countEff_cons, countEff_append, countEff_append,
      countEff_append]
    rw [show countEff isProbe [Effect.writeFile (outputDir ++ "/" ++ fn ++ "/master.m3u8")
        (masterContent st)] = 0 from rfl]
    have hv := countProbe_video m (outputDir ++ "/" ++ fn) (analyzeStreams m).video.enum
    have ha := countProbe_audio m (outputDir ++ "/" ++ fn) (analyzeStreams m).audio.enum
    have hs := countProbe_sub m (outputDir ++ "/" ++ fn) (analyzeStreams m).subtitle.enum
    unfold countProbe at hv ha hs
    rw [hv, ha, hs, List.enum_length, List.enum_length, List.enum_length]
    simp [isProbe]
    omega

/-- Witness for C5 on the concrete container `mAll`: 1 + 1 + 2·2 + 1 = 7
probe invocations. -/
theorem claim5_probe_count_witness :
    uploadPost (Except.ok mAll) (fun _ => true) "job"
        = (UploadResponse.ok "Video processed with all streams."
            ("/streams/" ++ "job/master.m3u8"),
          Effect.probe :: stAll.trace) ∧
      countProbe (Effect.probe :: stAll.trace)
        = 1 + (analyzeStreams mAll).video.length + 2 * (analyzeStreams mAll).audio.length
          + (analyzeStreams mAll).subtitle.length :=
  claim5_probe_count mAll (fun _ => true) "job" stAll "job/master.m3u8" rfl

/-- Counterexample to C5 as stated: on a container with a single audio
stream the job performs three probe invocations, not exactly one. -/
theorem claim5_cex :
    countProbe (uploadPost (Except.ok mOneAudio) (fun _ => true) "f").2 = 3 ∧
      (3 : Nat) ≠ 1 := by
  exact ⟨rfl, by decide⟩

/-- C6: if a generation call fails, the job aborts at once: the aborted
run's master playlist is never written (every file written is a per-stream
subtitle playlist, and the master name is none of them), every generation
call before the failing one had succeeded, and the caller receives the
generic 500 response. -/
theorem claim6_failfast (m : Metadata) (oracle : Nat → Bool) (fn : String)
    (st : HLSState)
    (h : createHLSForStreams m oracle fn (analyzeStreams m) = Except.error st) :
    (∀ c, Effect.writeFile (outputDir ++ "/" ++ fn ++ "/master.m3u8") c ∉ st.trace) ∧
      (∀ k, k + 1 < st.calls → oracle k = true) ∧
      uploadPost (Except.ok m) oracle fn
        = (UploadResponse.serverError 500 "Error processing video.",
          Effect.probe :: st.trace) := by
  obtain ⟨hA, hW⟩ := createHLS_err m oracle fn (analyzeStreams m) st h
  refine ⟨?_, hA, ?_⟩
  · intro c hmem
    obtain ⟨i, hi⟩ := hW _ c hmem
    exact master_ne_subname (outputDir ++ "/" ++ fn) i hi
  · unfold uploadPost
    simp only
    rw [h]

/-- Container with a single H.264 video stream. -/
def mOneVideo : Metadata := ⟨[⟨"video", "h264", none⟩]⟩

/-- The failing reference run: the only generation call is rejected. -/
def stFail : HLSState :=
  runState (createHLSForStreams mOneVideo (fun _ => false) "job"
    (analyzeStreams mOneVideo))

/-- Witness for C6: the failing run on `mOneVideo` writes no master
playlist and answers 500. -/
theorem claim6_failfast_witness :
    (∀ c, Effect.writeFile (outputDir ++ "/" ++ "job" ++ "/master.m3u8") c
        ∉ stFail.trace) ∧
      (∀ k, k + 1 < stFail.calls → (fun _ => false) k = true) ∧
      uploadPost (Except.ok mOneVideo) (fun _ => false) "job"
        = (UploadResponse.serverError 500 "Error processing video.",
          Effect.probe :: stFail.trace) :=
  claim6_failfast mOneVideo (fun _ => false) "job" stFail rfl

/-- C7: a probe failure yields the generic 500 response with no effect
beyond the probe itself — in particular no job output directory is ever
created — while on a successful probe the directory creation is the very
next effect after the analysis probe. -/
theorem claim7_probe_failure (oracle : Nat → Bool) (fn : String) :
    uploadPost (Except.error ()) oracle fn
        = (UploadResponse.serverError 500 "Error processing video.", [Effect.probe]) ∧
      (∀ d, Effect.mkdirJob d ∉ (uploadPost (Except.error ()) oracle fn).2) ∧
      (∀ m : Metadata, ∃ l, (uploadPost (Except.ok m) oracle fn).2
        = Effect.probe :: Effect.mkdirJob (outputDir ++ "/" ++ fn) :: l) := by
  refine ⟨rfl, ?_, ?_⟩
  · intro d hmem
    simp [uploadPost] at hmem
  · intro m
    have hh := createHLS_trace_head m oracle fn (analyzeStreams m)
    unfold uploadPost
    simp only
    cases hr : createHLSForStreams m oracle fn (analyzeStreams m) with
    | error st =>
      rw [hr] at hh
      obtain ⟨l, hl⟩ := hh
      simp only [runState] at hl
      refine ⟨l, ?_⟩
      simp [hl]
    | ok pr =>
      rw [hr] at hh
      obtain ⟨l, hl⟩ := hh
      simp only [runState] at hl
      cases pr with
      | mk st rel =>
        refine ⟨l, ?_⟩
        simpa using hl

/-- C9 (amended): the identifiers of two submissions of the same original
name are distinct whenever the recorded submission timestamps differ — the
derivation is injective in the timestamp — but two submissions falling into
the same `Date.now()` millisecond collide. -/
theorem claim9_distinct (t1 t2 : Nat) (nm : String) (h : t1 ≠ t2) :
    uploadFilename t1 nm ≠ uploadFilename t2 nm :=
  fun he => h (uploadFilename_inj_time t1 t2 nm he)

/-- Witness for C9 at two distinct timestamps. -/
theorem claim9_distinct_witness :
    uploadFilename 1700000000000 "movie.mkv" ≠ uploadFilename 1700000000001 "movie.mkv" :=
  claim9_distinct 1700000000000 1700000000001 "movie.mkv" (by decide)

/-- A clock that reports the same millisecond for every submission. -/
def sameClock : Nat → Nat := fun _ => 1700000000000

/-- Counterexample to C9 as stated: two distinct submissions (numbers 0 and
1) whose `Date.now()` readings coincide derive the same identifier. -/
theorem claim9_cex :
    (0 : Nat) ≠ 1 ∧
      uploadFilename (sameClock 0) "movie.mkv"
        = uploadFilename (sameClock 1) "movie.mkv" :=
  ⟨by decide, rfl⟩

theorem getLast?_cons_concat {α : Type} (e w : α) (X : List α) :
    (e :: (X ++ [w])).getLast? = some w := by
  rw [show e :: (X ++ [w]) = (e :: X) ++ [w] from rfl, List.getLast?_concat]

theorem masterContent_no_hdr (st : HLSState) :
    ¬ (("#EXTM3U" : String).data <+: (masterContent st).data) := by
  apply joinNL_no_hdr
  intro x hx
  simp only [List.mem_append, List.mem_map] at hx
  rcases hx with (⟨f, -, rfl⟩ | ⟨f, -, rfl⟩) | ⟨i, -, rfl⟩
  · exact renderAudio_no_hdr f
  · exact renderSub_no_hdr f
  · exact renderVideo_no_hdr i

theorem masterContent_last (st : HLSState) :
    (masterContent st).data.getLast? ≠ some '\n' := by
  apply joinNL_last
  intro x hx
  simp only [List.mem_append, List.mem_map] at hx
  rcases hx with (⟨f, -, rfl⟩ | ⟨f, -, rfl⟩) | ⟨i, -, rfl⟩
  · exact ⟨getLast?_ne_nil _ _ (renderAudio_last f), by rw [renderAudio_last]; simp⟩
  · exact ⟨getLast?_ne_nil _ _ (renderSub_last f), by rw [renderSub_last]; simp⟩
  · exact ⟨getLast?_ne_nil _ _ (renderVideo_last i), by rw [renderVideo_last]; simp⟩

/-- C3: the final effect of a completed job writes `master.m3u8` whose text
is the audio rendition lines, then the subtitle rendition lines, then the
video variant lines, joined by newlines; there is exactly one line per
accepted stream (audio and video lines per stream, subtitle lines only for
non-skipped streams) and within each type the lines are ordered by
type-local index — the audio and video index sequences are exactly
`0, 1, …` and the accepted-subtitle index sequence is a strictly increasing
subsequence of `0, 1, …`. -/
theorem claim3_manifest_order (m : Metadata) (oracle : Nat → Bool) (fn : String)
    (st : HLSState) (rel : String)
    (h : createHLSForStreams m oracle fn (analyzeStreams m) = Except.ok (st, rel)) :
    st.trace.getLast? = some (Effect.writeFile (outputDir ++ "/" ++ fn ++ "/master.m3u8")
        (joinNL ((analyzeStreams m).audio.enum.map (renderAudio ∘ audioFragOf m)
          ++ (subFrags m (analyzeStreams m).subtitle.enum).map renderSub
          ++ (analyzeStreams m).video.enum.map (renderVideo ∘ Prod.fst)))) ∧
      st.audioEntries.length = (analyzeStreams m).audio.length ∧
      st.subtitleEntries.length
        = ((analyzeStreams m).subtitle.enum.filter (keepSub m)).length ∧
      st.playlistEntries.length = (analyzeStreams m).video.length ∧
      st.audioEntries.map (fun f => f.idx) = List.range (analyzeStreams m).audio.length ∧
      st.playlistEntries = List.range (analyzeStreams m).video.length ∧
      (st.subtitleEntries.map (fun f => f.idx)).Sublist
        (List.range (analyzeStreams m).subtitle.length) ∧
      (st.subtitleEntries.map (fun f => f.idx)).Pairwise (· < ·) := by
  obtain ⟨-, hp, ha, hs, -, htr⟩ := createHLS_ok m oracle fn (analyzeStreams m) st rel h
  have hmc : masterContent st
      = joinNL ((analyzeStreams m).audio.enum.map (renderAudio ∘ audioFragOf m)
        ++ (subFrags m (analyzeStreams m).subtitle.enum).map renderSub
        ++ (analyzeStreams m).video.enum.map (renderVideo ∘ Prod.fst)) := by
    unfold masterContent
    rw [hp, ha, hs, List.map_map, List.map_map]
  have hsubidx : st.subtitleEntries.map (fun f => f.idx)
      = (((analyzeStreams m).subtitle.enum.filter (keepSub m)).map Prod.fst) := by
    rw [hs]
    unfold subFrags
    rw [List.map_map]
    rfl
  refine ⟨?_, ?_, ?_, ?_, ?_, ?_, ?_, ?_⟩
  · rw [htr, ← hmc]
    exact getLast?_cons_concat _ _ _
  · rw [ha]
    simp [List.enum_length]
  · rw [hs]
    simp [subFrags]
  · rw [hp]
    simp [List.enum_length]
  · rw [ha, List.map_map]
    exact List.enum_map_fst _
  · rw [hp]
    exact List.enum_map_fst _
  · rw [hsubidx, ← List.enum_map_fst]
    exact List.Sublist.map Prod.fst (List.filter_sublist _)
  · rw [hsubidx]
    have hsl : (((analyzeStreams m).subtitle.enum.filter (keepSub m)).map Prod.fst).Sublist
        (List.range (analyzeStreams m).subtitle.length) := by
      rw [← List.enum_map_fst]
      exact List.Sublist.map Prod.fst (List.filter_sublist _)
    exact List.Pairwise.sublist hsl (List.pairwise_lt_range _)

/-- Witness for C3 on the concrete container `mAll`. -/
theorem claim3_manifest_order_witness :
    stAll.trace.getLast? = some (Effect.writeFile
        (outputDir ++ "/" ++ "job" ++ "/master.m3u8")
        (joinNL ((analyzeStreams mAll).audio.enum.map (renderAudio ∘ audioFragOf mAll)
          ++ (subFrags mAll (analyzeStreams mAll).subtitle.enum).map renderSub
          ++ (analyzeStreams mAll).video.enum.map (renderVideo ∘ Prod.fst)))) ∧
      stAll.audioEntries.length = (analyzeStreams mAll).audio.length ∧
      stAll.subtitleEntries.length
        = ((analyzeStreams mAll).subtitle.enum.filter (keepSub mAll)).length ∧
      stAll.playlistEntries.length = (analyzeStreams mAll).video.length ∧
      stAll.audioEntries.map (fun f => f.idx)
        = List.range (analyzeStreams mAll).audio.length ∧
      stAll.playlistEntries = List.range (analyzeStreams mAll).video.length ∧
      (stAll.subtitleEntries.map (fun f => f.idx)).Sublist
        (List.range (analyzeStreams mAll).subtitle.length) ∧
      (stAll.subtitleEntries.map (fun f => f.idx)).Pairwise (· < ·) :=
  claim3_manifest_order mAll (fun _ => true) "job" stAll "job/master.m3u8" rfl

/-- C10: the master manifest text is exactly the audio, subtitle and video
entry lines joined by single newlines: the written file's content is the
plain join, it does not begin with an `#EXTM3U` header line, and it does not
end with a newline. -/
theorem claim10_master_text (m : Metadata) (oracle : Nat → Bool) (fn : String)
    (st : HLSState) (rel : String)
    (h : createHLSForStreams m oracle fn (analyzeStreams m) = Except.ok (st, rel)) :
    st.trace.getLast? = some (Effect.writeFile
        (outputDir ++ "/" ++ fn ++ "/master.m3u8") (masterContent st)) ∧
      masterContent st = joinNL (st.audioEntries.map renderAudio
        ++ st.subtitleEntries.map renderSub ++ st.playlistEntries.map renderVideo) ∧
      ¬ (("#EXTM3U" : String).data <+: (masterContent st).data) ∧
      (masterContent st).data.getLast? ≠ some '\n' := by
  obtain ⟨-, -, -, -, -, htr⟩ := createHLS_ok m oracle fn (analyzeStreams m) st rel h
  refine ⟨?_, rfl, masterContent_no_hdr st, masterContent_last st⟩
  rw [htr]
  exact getLast?_cons_concat _ _ _

/-- Witness for C10 on the concrete container `mAll`. -/
theorem claim10_master_text_witness :
    stAll.trace.getLast? = some (Effect.writeFile
        (outputDir ++ "/" ++ "job" ++ "/master.m3u8") (masterContent stAll)) ∧
      masterContent stAll = joinNL (stAll.audioEntries.map renderAudio
        ++ stAll.subtitleEntries.map renderSub
        ++ stAll.playlistEntries.map renderVideo) ∧
      ¬ (("#EXTM3U" : String).data <+: (masterContent stAll).data) ∧
      (masterContent stAll).data.getLast? ≠ some '\n' :=
  claim10_master_text mAll (fun _ => true) "job" stAll "job/master.m3u8" rfl

/-! ### Output naming (spec wording) -/

/-- Segment filename pattern in the spec's words (§4.3):
`<type>_<typeLocalIndex>_<sequence>.ts` inside the job directory, with
`%03d` standing for the sequence number. -/
def specSegName (out tok : String) (i : Nat) : String :=
  out ++ "/" ++ tok ++ "_" ++ natToDec i ++ "_%03d.ts"

/-- Stream-local manifest name in the spec's words:
`<type>_<typeLocalIndex>.m3u8` inside the job directory. -/
def specManifestName (out tok : String) (i : Nat) : String :=
  out ++ "/" ++ tok ++ "_" ++ natToDec i ++ ".m3u8"

/-- Subtitle track filename in the spec's words:
`<type>_<typeLocalIndex>.vtt` inside the job directory. -/
def specTrackName (out tok : String) (i : Nat) : String :=
  out ++ "/" ++ tok ++ "_" ++ natToDec i ++ ".vtt"

theorem specSegName_video (out : String) (i : Nat) :
    specSegName out "video" i = out ++ "/video_" ++ natToDec i ++ "_%03d.ts" := by
  unfold specSegName
  rw [String.append_assoc out "/" "video", show ("/" ++ "video" : String) = "/video" from rfl,
    String.append_assoc out "/video" "_", show ("/video" ++ "_" : String) = "/video_" from rfl]

theorem specSegName_audio (out : String) (i : Nat) :
    specSegName out "audio" i = out ++ "/audio_" ++ natToDec i ++ "_%03d.ts" := by
  unfold specSegName
  rw [String.append_assoc out "/" "audio", show ("/" ++ "audio" : String) = "/audio" from rfl,
    String.append_assoc out "/audio" "_", show ("/audio" ++ "_" : String) = "/audio_" from rfl]

theorem specManifestName_video (out : String) (i : Nat) :
    specManifestName out "video" i = out ++ "/video_" ++ natToDec i ++ ".m3u8" := by
  unfold specManifestName
  rw [String.append_assoc out "/" "video", show ("/" ++ "video" : String) = "/video" from rfl,
    String.append_assoc out "/video" "_", show ("/video" ++ "_" : String) = "/video_" from rfl]

theorem specManifestName_audio (out : String) (i : Nat) :
    specManifestName out "audio" i = out ++ "/audio_" ++ natToDec i ++ ".m3u8" := by
  unfold specManifestName
  rw [String.append_assoc out "/" "audio", show ("/" ++ "audio" : String) = "/audio" from rfl,
    String.append_assoc out "/audio" "_", show ("/audio" ++ "_" : String) = "/audio_" from rfl]

theorem specManifestName_sub (out : String) (i : Nat) :
    specManifestName out "sub" i = out ++ "/sub_" ++ natToDec i ++ ".m3u8" := by
  unfold specManifestName
  rw [String.append_assoc out "/" "sub", show ("/" ++ "sub" : String) = "/sub" from rfl,
    String.append_assoc out "/sub" "_", show ("/sub" ++ "_" : String) = "/sub_" from rfl]

theorem specTrackName_sub (out : String) (i : Nat) :
    specTrackName out "sub" i = out ++ "/sub_" ++ natToDec i ++ ".vtt" := by
  unfold specTrackName
  rw [String.append_assoc out "/" "sub", show ("/" ++ "sub" : String) = "/sub" from rfl,
    String.append_assoc out "/sub" "_", show ("/sub" ++ "_" : String) = "/sub_" from rfl]

theorem mem_effList (f : Nat × Nat → List Effect) :
    ∀ (l : List (Nat × Nat)) (e : Effect), e ∈ effList f l → ∃ p ∈ l, e ∈ f p := by
  intro l
  induction l with
  | nil => intro e he; simp [effList] at he
  | cons x xs ih =>
    intro e he
    simp only [effList, List.mem_append] at he
    rcases he with he | he
    · exact ⟨x, by simp, he⟩
    · obtain ⟨p, hp, hep⟩ := ih e he
      exact ⟨p, by simp [hp], hep⟩

/-- The per-command naming property of C8 for the hls-segmented and the
WebVTT engine invocations. -/
def SegNaming (out : String) (cmd : EngineCmd) : Prop :=
  (("-f", "hls") ∈ cmd.opts →
    ("-hls_time", "10") ∈ cmd.opts ∧ ("-hls_list_size", "0") ∈ cmd.opts ∧
    ∃ tok i, (tok = "video" ∨ tok = "audio") ∧
      ("-hls_segment_filename", specSegName out tok i) ∈ cmd.opts ∧
      cmd.outputFile = specManifestName out tok i) ∧
  (("-f", "webvtt") ∈ cmd.opts →
    ∃ i, cmd.outputFile = specTrackName out "sub" i)

theorem videoCmd_naming (out : String) (i si : Nat) (b : Bool) :
    SegNaming out (videoCmd out i si b) := by
  constructor
  · intro _
    refine ⟨by simp [videoCmd], by simp [videoCmd], "video", i, Or.inl rfl, ?_, ?_⟩
    · rw [specSegName_video]
      simp [videoCmd]
    · rw [specManifestName_video]
      rfl
  · intro hmem
    simp [videoCmd] at hmem

theorem audioCmd_naming (out : String) (i si : Nat) (b : Bool) :
    SegNaming out (audioCmd out i si b) := by
  constructor
  · intro _
    refine ⟨by simp [audioCmd], by simp [audioCmd], "audio", i, Or.inr rfl, ?_, ?_⟩
    · rw [specSegName_audio]
      simp [audioCmd]
    · rw [specManifestName_audio]
      rfl
  · intro hmem
    simp [audioCmd] at hmem

theorem subCmd_naming (out : String) (i si : Nat) :
    SegNaming out (subCmd out i si) := by
  constructor
  · intro hmem
    simp [subCmd] at hmem
  · intro _
    refine ⟨i, ?_⟩
    rw [specTrackName_sub]
    rfl

/-- C8: in every completed job, every ffmpeg invocation that produces an
hls-segmented stream uses target duration `10`, an unbounded list size
(`-hls_list_size 0`), the segment pattern `<type>_<typeLocalIndex>_<seq>.ts`
and the stream-local manifest `<type>_<typeLocalIndex>.m3u8` (with `video` /
`audio` as the type token); every WebVTT extraction writes the subtitle
track `sub_<typeLocalIndex>.vtt`; and every file written directly is either
the master playlist or a subtitle stream-local manifest
`sub_<typeLocalIndex>.m3u8`. -/
theorem claim8_naming (m : Metadata) (oracle : Nat → Bool) (fn : String)
    (st : HLSState) (rel : String)
    (h : createHLSForStreams m oracle fn (analyzeStreams m) = Except.ok (st, rel)) :
    (∀ cmd, Effect.engine cmd ∈ st.trace → SegNaming (outputDir ++ "/" ++ fn) cmd) ∧
      (∀ nm c, Effect.writeFile nm c ∈ st.trace →
        nm = outputDir ++ "/" ++ fn ++ "/master.m3u8" ∨
        ∃ i, nm = specManifestName (outputDir ++ "/" ++ fn) "sub" i) := by
  obtain ⟨-, -, -, -, -, htr⟩ := createHLS_ok m oracle fn (analyzeStreams m) st rel h
  constructor
  · intro cmd hmem
    rw [htr] at hmem
    simp only [List.mem_cons, List.mem_append] at hmem
    rcases hmem with h0 | (((hv | ha) | hs) | hlast)
    · cases h0
    · obtain ⟨p, -, hep⟩ := mem_effList _ _ _ hv
      unfold videoEffectsOf at hep
      cases hm : m.streams[p.2]? with
      | none => rw [hm] at hep; simp at hep
      | some info =>
        rw [hm] at hep
        simp at hep
        rw [hep]
        exact videoCmd_naming _ _ _ _
    · obtain ⟨p, -, hep⟩ := mem_effList _ _ _ ha
      unfold audioEffectsOf at hep
      simp at hep
      rw [hep]
      exact audioCmd_naming _ _ _ _
    · obtain ⟨p, -, hep⟩ := mem_effList _ _ _ hs
      unfold subEffectsOf at hep
      cases hm : m.streams[p.2]? with
      | none => rw [hm] at hep; simp at hep
      | some info =>
        rw [hm] at hep
        simp only at hep
        split at hep
        · simp at hep
        · simp at hep
          rw [hep]
          exact subCmd_naming _ _ _
    · simp at hlast
  · intro nm c hmem
    rw [htr] at hmem
    simp only [List.mem_cons, List.mem_append] at hmem
    rcases hmem with h0 | (((hv | ha) | hs) | hlast)
    · cases h0
    · obtain ⟨p, -, hep⟩ := mem_effList _ _ _ hv
      unfold videoEffectsOf at hep
      cases hm : m.streams[p.2]? with
      | none => rw [hm] at hep; simp at hep
      | some info => rw [hm] at hep; simp at hep
    · obtain ⟨p, -, hep⟩ := mem_effList _ _ _ ha
      unfold audioEffectsOf at hep
      simp at hep
    · obtain ⟨p, -, hep⟩ := mem_effList _ _ _ hs
      unfold subEffectsOf at hep
      cases hm : m.streams[p.2]? with
      | none => rw [hm] at hep; simp at hep
      | some info =>
        rw [hm] at hep
        simp only at hep
        split at hep
        · simp at hep
        · simp at hep
          refine Or.inr ⟨p.1, ?_⟩
          rw [specManifestName_sub]
          exact hep.1
    · simp at hlast
      exact Or.inl hlast.1

/-- Witness for C8 on the concrete container `mAll`. -/
theorem claim8_naming_witness :
    (∀ cmd, Effect.engine cmd ∈ stAll.trace →
        SegNaming (outputDir ++ "/" ++ "job") cmd) ∧
      (∀ nm c, Effect.writeFile nm c ∈ stAll.trace →
        nm = outputDir ++ "/" ++ "job" ++ "/master.m3u8" ∨
        ∃ i, nm = specManifestName (outputDir ++ "/" ++ "job") "sub" i) :=
  claim8_naming mAll (fun _ => true) "job" stAll "job/master.m3u8" rfl

/-! ### Existence of the successful run under an all-true oracle -/

theorem videoFold_exists (m : Metadata) (out : String) :
    ∀ (l : List (Nat × Nat)), (∀ p ∈ l, p.2 < m.streams.length) →
      ∀ st, ∃ st', foldSteps (videoStep m (fun _ => true) out) l st = Except.ok st' := by
  intro l
  induction l with
  | nil => intro _ st; exact ⟨st, rfl⟩
  | cons p ps ih =>
    intro hl st
    have hp : p.2 < m.streams.length := hl p (by simp)
    obtain ⟨info, hinfo⟩ : ∃ info, m.streams[p.2]? = some info :=
      ⟨m.streams[p.2], List.getElem?_eq_getElem hp⟩
    obtain ⟨st', hst'⟩ := ih (fun q hq => hl q (by simp [hq]))
      { st with
        trace := st.trace ++ [Effect.probe,
          Effect.engine (videoCmd out p.1 p.2 (info.codec_name == "h264"))],
        calls := st.calls + 1,
        playlistEntries := st.playlistEntries ++ [p.1] }
    refine ⟨st', ?_⟩
    simp only [foldSteps]
    rw [show videoStep m (fun _ => true) out st p = Except.ok
        { st with
          trace := st.trace ++ [Effect.probe,
            Effect.engine (videoCmd out p.1 p.2 (info.codec_name == "h264"))],
          calls := st.calls + 1,
          playlistEntries := st.playlistEntries ++ [p.1] } from by
      unfold videoStep
      rw [hinfo]
      simp]
    exact hst'

theorem audioFold_exists (m : Metadata) (out : String) :
    ∀ (l : List (Nat × Nat)) (st : HLSState),
      ∃ st', foldSteps (audioStep m (fun _ => true) out) l st = Except.ok st' := by
  intro l
  induction l with
  | nil => intro st; exact ⟨st, rfl⟩
  | cons p ps ih =>
    intro st
    obtain ⟨st', hst'⟩ := ih { st with
      trace := st.trace ++ audioEffectsOf m out p,
      calls := st.calls + 1,
      audioEntries := st.audioEntries ++ [audioFragOf m p] }
    refine ⟨st', ?_⟩
    simp only [foldSteps]
    rw [show audioStep m (fun _ => true) out st p = Except.ok
        { st with
          trace := st.trace ++ audioEffectsOf m out p,
          calls := st.calls + 1,
          audioEntries := st.audioEntries ++ [audioFragOf m p] } from by
      unfold audioStep audioEffectsOf audioFragOf
      simp]
    exact hst'

theorem subFold_exists (m : Metadata) (out : String) :
    ∀ (l : List (Nat × Nat)), (∀ p ∈ l, p.2 < m.streams.length) →
      ∀ st, ∃ st', foldSteps (subStep m (fun _ => true) out) l st = Except.ok st' := by
  intro l
  induction l with
  | nil => intro _ st; exact ⟨st, rfl⟩
  | cons p ps ih =>
    intro hl st
    have hp : p.2 < m.streams.length := hl p (by simp)
    obtain ⟨info, hinfo⟩ : ∃ info, m.streams[p.2]? = some info :=
      ⟨m.streams[p.2], List.getElem?_eq_getElem hp⟩
    by_cases hs : skipSubtitle info.codec_name
    · obtain ⟨st', hst'⟩ := ih (fun q hq => hl q (by simp [hq]))
        { st with trace := st.trace ++ [Effect.probe] }
      refine ⟨st', ?_⟩
      simp only [foldSteps]
      rw [show subStep m (fun _ => true) out st p = Except.ok
          { st with trace := st.trace ++ [Effect.probe] } from by
        unfold subStep
        rw [hinfo]
        simp [hs]]
      exact hst'
    · obtain ⟨st', hst'⟩ := ih (fun q hq => hl q (by simp [hq]))
        { st with
          trace := (st.trace ++ [Effect.probe, Effect.engine (subCmd out p.1 p.2)])
            ++ [Effect.writeFile (out ++ "/sub_" ++ natToDec p.1 ++ ".m3u8")
              (subManifestContent p.1)],
          calls := st.calls + 1,
          subtitleEntries := st.subtitleEntries ++ [⟨langOf info, p.1, p.1 == 0⟩] }
      refine ⟨st', ?_⟩
      simp only [foldSteps]
      rw [show subStep m (fun _ => true) out st p = Except.ok
          { st with
            trace := (st.trace ++ [Effect.probe, Effect.engine (subCmd out p.1 p.2)])
              ++ [Effect.writeFile (out ++ "/sub_" ++ natToDec p.1 ++ ".m3u8")
                (subManifestContent p.1)],
            calls := st.calls + 1,
            subtitleEntries := st.subtitleEntries ++ [⟨langOf info, p.1, p.1 == 0⟩] } from by
        unfold subStep
        rw [hinfo]
        simp [hs]]
      exact hst'

theorem createHLS_exists (m : Metadata) (fileName : String) (streams : Streams)
    (hv : ∀ p ∈ streams.video.enum, p.2 < m.streams.length)
    (hs : ∀ p ∈ streams.subtitle.enum, p.2 < m.streams.length) :
    ∃ st, createHLSForStreams m (fun _ => true) fileName streams
      = Except.ok (st, fileName ++ "/master.m3u8") := by
  unfold createHLSForStreams
  simp only
  obtain ⟨st1, h1⟩ := videoFold_exists m (outputDir ++ "/" ++ fileName)
    streams.video.enum hv
    { trace := [Effect.mkdirJob (outputDir ++ "/" ++ fileName)], calls := 0,
      playlistEntries := [], audioEntries := [], subtitleEntries := [] }
  rw [h1]
  simp only
  obtain ⟨st2, h2⟩ := audioFold_exists m (outputDir ++ "/" ++ fileName)
    streams.audio.enum st1
  rw [h2]
  simp only
  obtain ⟨st3, h3⟩ := subFold_exists m (outputDir ++ "/" ++ fileName)
    streams.subtitle.enum hs st2
  rw [h3]
  simp only
  exact ⟨_, rfl⟩

/-- Does the engine invocation carry option `k` with value `tgt`? -/
def cmdHas (k tgt : String) (c : EngineCmd) : Bool :=
  c.opts.any (fun o => o.1 == k && o.2 == tgt)

/-- C4: a container with one H.264 video stream, two audio streams of which
exactly one is AAC, and one subtitle stream with a supported codec yields a
successful job with exactly one video passthrough invocation (`-c:v copy`),
no video re-encode, one audio passthrough (`-c:a copy`), one audio
re-encode (`-c:a aac`), one subtitle extraction (`-f webvtt`), and a master
playlist carrying two audio lines, one subtitle line and one video line. -/
theorem claim4_roundtrip (v a1 a2 s : ProbeStream)
    (hv : v.codec_type = "video") (hvc : v.codec_name = "h264")
    (ha1 : a1.codec_type = "audio") (ha2 : a2.codec_type = "audio")
    (hst : s.codec_type = "subtitle") (hsk : skipSubtitle s.codec_name = false)
    (haac : (a1.codec_name = "aac" ∧ a2.codec_name ≠ "aac") ∨
      (a1.codec_name ≠ "aac" ∧ a2.codec_name = "aac")) :
    ∃ st, createHLSForStreams ⟨[v, a1, a2, s]⟩ (fun _ => true) "job"
        (analyzeStreams ⟨[v, a1, a2, s]⟩) = Except.ok (st, "job" ++ "/master.m3u8") ∧
      countEff (isEngine (cmdHas "-c:v" "copy")) st.trace = 1 ∧
      countEff (isEngine (cmdHas "-c:v" "libx264")) st.trace = 0 ∧
      countEff (isEngine (cmdHas "-c:a" "copy")) st.trace = 1 ∧
      countEff (isEngine (cmdHas "-c:a" "aac")) st.trace = 1 ∧
      countEff (isEngine (cmdHas "-f" "webvtt")) st.trace = 1 ∧
      st.audioEntries.length = 2 ∧ st.subtitleEntries.length = 1 ∧
      st.playlistEntries.length = 1 := by
  have hstreams : analyzeStreams ⟨[v, a1, a2, s]⟩ = ⟨[0], [1, 2], [3]⟩ := by
    unfold analyzeStreams
    simp [List.enum, List.enumFrom, hv, ha1, ha2, hst]
  rw [hstreams]
  obtain ⟨st, hok⟩ := createHLS_exists ⟨[v, a1, a2, s]⟩ "job" ⟨[0], [1, 2], [3]⟩
    (by intro p hp; simp [List.enum, List.enumFrom] at hp; subst hp; simp)
    (by intro p hp; simp [List.enum, List.enumFrom] at hp; subst hp; simp)
  obtain ⟨-, hp, ha, hs, -, htr⟩ := createHLS_ok _ _ _ _ _ _ hok
  have haac1 : isAudioStreamAAC ⟨[v, a1, a2, s]⟩ 1 = (a1.codec_name == "aac") := by
    unfold isAudioStreamAAC
    simp [List.enum, List.enumFrom, List.find?, hv, ha1]
  have haac2 : isAudioStreamAAC ⟨[v, a1, a2, s]⟩ 2 = (a2.codec_name == "aac") := by
    unfold isAudioStreamAAC
    simp [List.enum, List.enumFrom, List.find?, hv, ha1, ha2]
  refine ⟨st, hok, ?_⟩
  rw [htr]
  have hlen : st.audioEntries.length = 2 ∧ st.subtitleEntries.length = 1 ∧
      st.playlistEntries.length = 1 := by
    refine ⟨?_, ?_, ?_⟩
    · rw [ha]; simp [List.enum, List.enumFrom]
    · rw [hs]; simp [subFrags, List.enum, List.enumFrom, keepSub, hsk]
    · rw [hp]; simp [List.enum, List.enumFrom]
  rcases haac with ⟨h1, h2⟩ | ⟨h1, h2⟩ <;>
    simp [List.enum, List.enumFrom, effList, videoEffectsOf, audioEffectsOf,
      subEffectsOf, countEff_cons, countEff_append, countEff, isEngine, cmdHas,
      videoCmd, audioCmd, subCmd, haac1, haac2, hvc, hsk, h1, h2, hlen.1,
      hlen.2.1, hlen.2.2]

/-- Witness for C4 on the concrete streams of `mAll`. -/
theorem claim4_roundtrip_witness :
    ∃ st, createHLSForStreams
        ⟨[⟨"video", "h264", none⟩, ⟨"audio", "aac", some "eng"⟩,
          ⟨"audio", "mp3", some "spa"⟩, ⟨"subtitle", "ass", some "eng"⟩]⟩
        (fun _ => true) "job"
        (analyzeStreams ⟨[⟨"video", "h264", none⟩, ⟨"audio", "aac", some "eng"⟩,
          ⟨"audio", "mp3", some "spa"⟩, ⟨"subtitle", "ass", some "eng"⟩]⟩)
        = Except.ok (st, "job" ++ "/master.m3u8") ∧
      countEff (isEngine (cmdHas "-c:v" "copy")) st.trace = 1 ∧
      countEff (isEngine (cmdHas "-c:v" "libx264")) st.trace = 0 ∧
      countEff (isEngine (cmdHas "-c:a" "copy")) st.trace = 1 ∧
      countEff (isEngine (cmdHas "-c:a" "aac")) st.trace = 1 ∧
      countEff (isEngine (cmdHas "-f" "webvtt")) st.trace = 1 ∧
      st.audioEntries.length = 2 ∧ st.subtitleEntries.length = 1 ∧
      st.playlistEntries.length = 1 :=
  claim4_roundtrip ⟨"video", "h264", none⟩ ⟨"audio", "aac", some "eng"⟩
    ⟨"audio", "mp3", some "spa"⟩ ⟨"subtitle", "ass", some "eng"⟩
    rfl rfl rfl rfl rfl (by decide) (Or.inl ⟨rfl, by decide⟩)

/-- Witness for C7 at a concrete oracle and job name. -/
theorem claim7_probe_failure_witness :
    uploadPost (Except.error ()) (fun _ => true) "job"
        = (UploadResponse.serverError 500 "Error processing video.", [Effect.probe]) ∧
      (∀ d, Effect.mkdirJob d ∉ (uploadPost (Except.error ()) (fun _ => true) "job").2) ∧
      (∀ m : Metadata, ∃ l, (uploadPost (Except.ok m) (fun _ => true) "job").2
        = Effect.probe :: Effect.mkdirJob (outputDir ++ "/" ++ "job") :: l) :=
  claim7_probe_failure (fun _ => true) "job"

end MkvServer













